import Mathlib

set_option maxHeartbeats 1000000

/-!
Shallow embedding of the multidns DNS wire-format codec.

Buffers are `List Nat` of byte values; readers are pure functions taking a
buffer and a cursor position and returning the decoded value together with the
new cursor, or a short-read failure mirroring the EOF errors of the Go byte
reader.  The unbounded recursion of the name decoder is made total with a fuel
parameter; exhausting every fuel models divergence of the Go original.
-/

namespace Multidns

/-- A single label: a length octet and its payload bytes
    (source: `type Label struct { Length uint8; Name []byte }`). -/
structure Label where
  length : Nat
  name : List Nat
deriving DecidableEq, Repr

/-- A domain is a series of labels (source: `type Domain []Label`). -/
abbrev Domain := List Label

/-- `Label.Offset`: when both reserved top bits of the length octet are set,
    the low six bits of the length octet and the stored byte form a 14-bit
    absolute offset; otherwise the offset is zero (source lines 238-246). -/
def Label.offset (l : Label) : Nat :=
  if l.length &&& 192 = 192 then ((l.length &&& 63) <<< 8) ||| l.name.headD 0
  else 0

/-- `Label.ReadFrom` over a byte buffer: read the length octet; if both
    reserved bits are set read one more byte and keep it as the name,
    otherwise read exactly `length` following bytes (source lines 195-220).
    `none` is the short-read (EOF) failure. -/
def Label.readFrom (buf : List Nat) (pos : Nat) : Option (Label × Nat) :=
  match buf[pos]? with
  | none => none
  | some b0 =>
    if b0 &&& 192 = 192 then
      match buf[pos+1]? with
      | none => none
      | some b1 => some (⟨b0, [b1]⟩, pos + 2)
    else
      if pos + 1 + b0 ≤ buf.length then
        some (⟨b0, (buf.drop (pos+1)).take b0⟩, pos + 1 + b0)
      else none

/-- Result of `Domain.ReadFrom`: success with the labels and the new cursor,
    short read carrying the labels appended so far (the Go method mutates the
    receiver before failing), or fuel exhaustion standing for divergence of
    the unbounded recursion in the source. -/
inductive DomRes where
  | ok (d : Domain) (pos : Nat)
  | eof (d : Domain)
  | fuelOut
deriving DecidableEq, Repr

/-- `Domain.ReadFrom` (source lines 252-292) with the receiver made an
    explicit accumulator.  The pointer branch is taken only for a nonzero
    offset; afterwards the deferred `Seek` restores the cursor two bytes past
    the pointer start, and because that `Seek` also assigns `err`, an error
    inside a followed pointer is swallowed and the partial labels are kept. -/
def Domain.readFromAux : Nat → List Nat → Nat → Domain → DomRes
  | 0, _, _, _ => .fuelOut
  | fuel+1, buf, pos, acc =>
    match Label.readFrom buf pos with
    | none => .eof acc
    | some (label, pos1) =>
      if label.offset ≠ 0 then
        match Domain.readFromAux fuel buf label.offset acc with
        | .ok d _ => .ok d pos1
        | .eof d => .ok d pos1
        | .fuelOut => .fuelOut
      else
        if label.length = 0 then .ok (acc ++ [label]) pos1
        else
          match Domain.readFromAux fuel buf pos1 (acc ++ [label]) with
          | .ok d p => .ok d p
          | .eof d => .eof d
          | .fuelOut => .fuelOut

/-- `Domain.ReadFrom` called on a fresh (empty) domain, as every decode site
    in the source does. -/
def Domain.readFrom (fuel : Nat) (buf : List Nat) (pos : Nat) : DomRes :=
  Domain.readFromAux fuel buf pos []

/-- Generic decode result: success, short read, or fuel exhaustion. -/
inductive Res (α : Type) where
  | ok (a : α)
  | eof
  | fuelOut
deriving DecidableEq, Repr

/-- Big-endian 16-bit read (`binary.Read` of a uint16): fails unless two
    bytes remain. -/
def readU16 (buf : List Nat) (pos : Nat) : Option (Nat × Nat) :=
  match buf[pos]?, buf[pos+1]? with
  | some a, some b => some (a * 256 + b, pos + 2)
  | _, _ => none

/-- Big-endian 32-bit read (`binary.Read` of a uint32). -/
def readU32 (buf : List Nat) (pos : Nat) : Option (Nat × Nat) :=
  match buf[pos]?, buf[pos+1]?, buf[pos+2]?, buf[pos+3]? with
  | some a, some b, some c, some d =>
      some (a * 16777216 + b * 65536 + c * 256 + d, pos + 4)
  | _, _, _, _ => none

/-- Read exactly `k` bytes (`io.ReadFull` / `binary.Read` of a byte array). -/
def readBytes (k : Nat) (buf : List Nat) (pos : Nat) : Option (List Nat × Nat) :=
  if pos + k ≤ buf.length then some ((buf.drop pos).take k, pos + k) else none

/-- `type Query struct { Domain; Type uint16; Class uint16 }`; the two tag
    fields are renamed `qtype`/`qclass` because `class` is reserved. -/
structure Query where
  domain : Domain
  qtype : Nat
  qclass : Nat
deriving DecidableEq, Repr

/-- `Query.ReadFrom`: name, then type, then class (source lines 387-402). -/
def Query.readFrom (fuel : Nat) (buf : List Nat) (pos : Nat) : Res (Query × Nat) :=
  match Domain.readFromAux fuel buf pos [] with
  | .fuelOut => .fuelOut
  | .eof _ => .eof
  | .ok d pos1 =>
    match readU16 buf pos1 with
    | none => .eof
    | some (t, pos2) =>
      match readU16 buf pos2 with
      | none => .eof
      | some (c, pos3) => .ok (⟨d, t, c⟩, pos3)

/-- The common resource-record prefix (source lines 425-436). -/
structure ResourceRecord where
  query : Query
  timeToLive : Nat
  length : Nat
deriving DecidableEq, Repr

/-- `ResourceRecord.ReadFrom`: query prefix, TTL, declared payload length
    (source lines 438-453). -/
def ResourceRecord.readFrom (fuel : Nat) (buf : List Nat) (pos : Nat) :
    Res (ResourceRecord × Nat) :=
  match Query.readFrom fuel buf pos with
  | .fuelOut => .fuelOut
  | .eof => .eof
  | .ok (q, p1) =>
    match readU32 buf p1 with
    | none => .eof
    | some (ttl, p2) =>
      match readU16 buf p2 with
      | none => .eof
      | some (len, p3) => .ok (⟨q, ttl, len⟩, p3)

/-- One element of a decoded section: the concrete record variants of the
    source plus `nilReply` for a slice slot the decoder left nil
    (the unknown-type branch of `Section.ReadFrom` skips the payload and
    stores nothing). -/
inductive Reply where
  | a (rr : ResourceRecord) (ip : List Nat)
  | ns (rr : ResourceRecord) (authoritative : Domain)
  | cname (rr : ResourceRecord) (canonical : Domain)
  | soa (rr : ResourceRecord) (original mailbox : Domain)
      (serial refresh retryIv expire minimum : Nat)
  | ptr (rr : ResourceRecord) (location : Domain)
  | mx (rr : ResourceRecord) (preference : Nat) (exchange : Domain)
  | txt (rr : ResourceRecord) (text : Domain)
  | aaaa (rr : ResourceRecord) (ip : List Nat)
  | mb (rr : ResourceRecord) (host : Domain)
  | md (rr : ResourceRecord) (host : Domain)
  | mf (rr : ResourceRecord) (host : Domain)
  | mg (rr : ResourceRecord) (mailbox : Domain)
  | mr (rr : ResourceRecord) (mailbox : Domain)
  | hinfo (rr : ResourceRecord) (cpu os : Label)
  | minfo (rr : ResourceRecord) (responsible errBox : Domain)
  | nilReply
deriving DecidableEq, Repr

/-- One iteration of the `Section.ReadFrom` loop (source lines 943-996):
    read a record prefix, dispatch on the type tag.  The dispatched cases are
    exactly A, NS, CNAME, SOA, PTR, MX, TXT, AAAA; everything else skips the
    declared payload length and leaves the slot nil.  The SOA and MX variants
    call `Section.ReadFrom` on their field list, which runs this very loop
    body over 7 (resp. 2) elements — re-parsing whole record prefixes from
    the stream and throwing the results away, so the payload fields stay at
    their zero values just as in the source; those inner iterations are
    unrolled here so that the recursion is structural on the fuel. -/
def sectionEntryReadFrom : Nat → List Nat → Nat → Res (Reply × Nat)
  | 0, _, _ => .fuelOut
  | fuel+1, buf, pos =>
    match ResourceRecord.readFrom (fuel+1) buf pos with
    | .fuelOut => .fuelOut
    | .eof => .eof
    | .ok (rr, p1) =>
      if rr.query.qtype = 1 then
        match readBytes 4 buf p1 with
        | none => .eof
        | some (ip, p2) => .ok (.a rr ip, p2)
      else if rr.query.qtype = 2 then
        match Domain.readFromAux (fuel+1) buf p1 [] with
        | .fuelOut => .fuelOut
        | .eof _ => .eof
        | .ok d p2 => .ok (.ns rr d, p2)
      else if rr.query.qtype = 5 then
        match Domain.readFromAux (fuel+1) buf p1 [] with
        | .fuelOut => .fuelOut
        | .eof _ => .eof
        | .ok d p2 => .ok (.cname rr d, p2)
      else if rr.query.qtype = 6 then
        match sectionEntryReadFrom fuel buf p1 with
        | .fuelOut => .fuelOut
        | .eof => .eof
        | .ok (_, q1) =>
        match sectionEntryReadFrom fuel buf q1 with
        | .fuelOut => .fuelOut
        | .eof => .eof
        | .ok (_, q2) =>
        match sectionEntryReadFrom fuel buf q2 with
        | .fuelOut => .fuelOut
        | .eof => .eof
        | .ok (_, q3) =>
        match sectionEntryReadFrom fuel buf q3 with
        | .fuelOut => .fuelOut
        | .eof => .eof
        | .ok (_, q4) =>
        match sectionEntryReadFrom fuel buf q4 with
        | .fuelOut => .fuelOut
        | .eof => .eof
        | .ok (_, q5) =>
        match sectionEntryReadFrom fuel buf q5 with
        | .fuelOut => .fuelOut
        | .eof => .eof
        | .ok (_, q6) =>
        match sectionEntryReadFrom fuel buf q6 with
        | .fuelOut => .fuelOut
        | .eof => .eof
        | .ok (_, q7) => .ok (.soa rr [] [] 0 0 0 0 0, q7)
      else if rr.query.qtype = 12 then
        match Domain.readFromAux (fuel+1) buf p1 [] with
        | .fuelOut => .fuelOut
        | .eof _ => .eof
        | .ok d p2 => .ok (.ptr rr d, p2)
      else if rr.query.qtype = 15 then
        match sectionEntryReadFrom fuel buf p1 with
        | .fuelOut => .fuelOut
        | .eof => .eof
        | .ok (_, q1) =>
        match sectionEntryReadFrom fuel buf q1 with
        | .fuelOut => .fuelOut
        | .eof => .eof
        | .ok (_, q2) => .ok (.mx rr 0 [], q2)
      else if rr.query.qtype = 16 then
        match Domain.readFromAux (fuel+1) buf p1 [] with
        | .fuelOut => .fuelOut
        | .eof _ => .eof
        | .ok d p2 => .ok (.txt rr d, p2)
      else if rr.query.qtype = 28 then
        match readBytes 16 buf p1 with
        | none => .eof
        | some (ip, p2) => .ok (.aaaa rr ip, p2)
      else
        if p1 + rr.length ≤ buf.length then .ok (.nilReply, p1 + rr.length)
        else .eof

/-- `Section.ReadFrom` over a slice of the given element count. -/
def sectionListReadFrom (fuel : Nat) : Nat → List Nat → Nat → Res (List Reply × Nat)
  | 0, _, pos => .ok ([], pos)
  | count+1, buf, pos =>
    match sectionEntryReadFrom fuel buf pos with
    | .fuelOut => .fuelOut
    | .eof => .eof
    | .ok (r, p1) =>
      match sectionListReadFrom fuel count buf p1 with
      | .fuelOut => .fuelOut
      | .eof => .eof
      | .ok (rs, p2) => .ok (r :: rs, p2)

/-- `Question.ReadFrom` (source lines 911-921): a fixed-count repetition of
    `Query.ReadFrom`. -/
def questionReadFrom (fuel : Nat) : Nat → List Nat → Nat → Res (List Query × Nat)
  | 0, _, pos => .ok ([], pos)
  | count+1, buf, pos =>
    match Query.readFrom fuel buf pos with
    | .fuelOut => .fuelOut
    | .eof => .eof
    | .ok (q, p1) =>
      match questionReadFrom fuel count buf p1 with
      | .fuelOut => .fuelOut
      | .eof => .eof
      | .ok (qs, p2) => .ok (q :: qs, p2)

/-- The fixed 12-byte header (source lines 33-82). -/
structure Header where
  id : Nat
  isReply : Bool
  opcode : Nat
  isAuthoritative : Bool
  isTruncated : Bool
  isRecursionDesired : Bool
  isRecursionAvailable : Bool
  responseCode : Nat
  questionCount : Nat
  answerCount : Nat
  authorityCount : Nat
  additionalCount : Nat
deriving DecidableEq, Repr

/-- `Header.ReadFrom` (source lines 93-135).  The two control bytes are read
    with a plain `Read` whose error the source never checks, so missing bytes
    appear as zero and the cursor stops at the buffer end; each 16-bit count
    is read with `binary.Read`, which fails on a short buffer.  The opcode is
    `(b0 &^ QRBit) >> 3` and the response code is `b1 &^ RABit`: only bit 7
    of the second control byte is masked off. -/
def Header.readFrom (buf : List Nat) (pos : Nat) : Option (Header × Nat) :=
  match readU16 buf pos with
  | none => none
  | some (hid, p1) =>
    let b0 := (buf[p1]?).getD 0
    let b1 := (buf[p1+1]?).getD 0
    let p2 := min (p1 + 2) buf.length
    match readU16 buf p2 with
    | none => none
    | some (qd, p3) =>
    match readU16 buf p3 with
    | none => none
    | some (an, p4) =>
    match readU16 buf p4 with
    | none => none
    | some (ns, p5) =>
    match readU16 buf p5 with
    | none => none
    | some (ar, p6) =>
      some ({ id := hid
              isReply := b0 &&& 128 == 128
              opcode := (b0 &&& 127) >>> 3
              isAuthoritative := b0 &&& 4 == 4
              isTruncated := b0 &&& 2 == 2
              isRecursionDesired := b0 &&& 1 == 1
              isRecursionAvailable := b1 &&& 128 == 128
              responseCode := b1 &&& 127
              questionCount := qd
              answerCount := an
              authorityCount := ns
              additionalCount := ar }, p6)

/-- Big-endian 16-bit write (`binary.Write` of a uint16). -/
def wu16 (v : Nat) : List Nat := [v / 256 % 256, v % 256]

/-- Big-endian 32-bit write (`binary.Write` of a uint32). -/
def wu32 (v : Nat) : List Nat :=
  [v / 16777216 % 256, v / 65536 % 256, v / 256 % 256, v % 256]

/-- `Label.WriteTo`: the length octet followed by the name bytes
    (source lines 223-235). -/
def Label.writeTo (l : Label) : List Nat := (l.length % 256) :: l.name

/-- `Domain.WriteTo`: every label in order, terminator included
    (source lines 295-305). -/
def Domain.writeTo (d : Domain) : List Nat := (d.map Label.writeTo).flatten

/-- `Query.WriteTo`: name, type, class (source lines 405-420). -/
def Query.writeTo (q : Query) : List Nat :=
  q.domain.writeTo ++ wu16 q.qtype ++ wu16 q.qclass

/-- `ResourceRecord.WriteTo`: query prefix, TTL, declared length
    (source lines 456-471). -/
def ResourceRecord.writeTo (rr : ResourceRecord) : List Nat :=
  rr.query.writeTo ++ wu32 rr.timeToLive ++ wu16 rr.length

/-- `Header.WriteTo` (source lines 138-185): identifier, the two packed
    control bytes, then the four counts. -/
def Header.writeTo (h : Header) : List Nat :=
  wu16 h.id ++
  [((h.opcode <<< 3) % 256) ||| (if h.isReply then 128 else 0) |||
     (if h.isAuthoritative then 4 else 0) ||| (if h.isTruncated then 2 else 0) |||
     (if h.isRecursionDesired then 1 else 0),
   h.responseCode ||| (if h.isRecursionAvailable then 128 else 0)] ++
  wu16 h.questionCount ++ wu16 h.answerCount ++
  wu16 h.authorityCount ++ wu16 h.additionalCount

/-- Each record variant's `WriteTo`: the common prefix then the payload shape
    (source lines 489-907).  A nil slice slot has no `WriteTo` in the source
    (calling it would crash); it is mapped to the empty byte sequence and is
    excluded by every well-formedness hypothesis below. -/
def Reply.writeTo : Reply → List Nat
  | .a rr ip => rr.writeTo ++ ip
  | .ns rr d => rr.writeTo ++ d.writeTo
  | .cname rr d => rr.writeTo ++ d.writeTo
  | .soa rr o mbx s rf rt e mn =>
      rr.writeTo ++ o.writeTo ++ mbx.writeTo ++
      wu32 s ++ wu32 rf ++ wu32 rt ++ wu32 e ++ wu32 mn
  | .ptr rr d => rr.writeTo ++ d.writeTo
  | .mx rr p ex => rr.writeTo ++ wu16 p ++ ex.writeTo
  | .txt rr d => rr.writeTo ++ d.writeTo
  | .aaaa rr ip => rr.writeTo ++ ip
  | .mb rr d => rr.writeTo ++ d.writeTo
  | .md rr d => rr.writeTo ++ d.writeTo
  | .mf rr d => rr.writeTo ++ d.writeTo
  | .mg rr d => rr.writeTo ++ d.writeTo
  | .mr rr d => rr.writeTo ++ d.writeTo
  | .hinfo rr cpu os => rr.writeTo ++ cpu.writeTo ++ os.writeTo
  | .minfo rr r1 r2 => rr.writeTo ++ r1.writeTo ++ r2.writeTo
  | .nilReply => []

/-- The top-level message (source lines 1014-1020). -/
structure Message where
  header : Header
  question : List Query
  answer : List Reply
  authority : List Reply
  additional : List Reply
deriving DecidableEq, Repr

/-- `Message.WriteTo` / `MarshalBinary`: header, questions, answer, authority,
    additional, concatenated (source lines 1057-1074). -/
def Message.writeTo (m : Message) : List Nat :=
  m.header.writeTo ++ (m.question.map Query.writeTo).flatten ++
  (m.answer.map Reply.writeTo).flatten ++ (m.authority.map Reply.writeTo).flatten ++
  (m.additional.map Reply.writeTo).flatten

def Message.marshalBinary (m : Message) : List Nat := m.writeTo

/-- `Message.ReadFrom` (source lines 1022-1054): header first, then the four
    count-sized section loops in order. -/
def Message.readFrom (fuel : Nat) (buf : List Nat) : Res (Message × Nat) :=
  match Header.readFrom buf 0 with
  | none => .eof
  | some (h, p1) =>
    match questionReadFrom fuel h.questionCount buf p1 with
    | .fuelOut => .fuelOut
    | .eof => .eof
    | .ok (qs, p2) =>
    match sectionListReadFrom fuel h.answerCount buf p2 with
    | .fuelOut => .fuelOut
    | .eof => .eof
    | .ok (ans, p3) =>
    match sectionListReadFrom fuel h.authorityCount buf p3 with
    | .fuelOut => .fuelOut
    | .eof => .eof
    | .ok (aus, p4) =>
    match sectionListReadFrom fuel h.additionalCount buf p4 with
    | .fuelOut => .fuelOut
    | .eof => .eof
    | .ok (ads, p5) => .ok (⟨h, qs, ans, aus, ads⟩, p5)

/-- The `errors` map (source lines 1156-1163); a missing key yields the map's
    zero value, nil. -/
def errorsMap (code : Nat) : Option String :=
  if code = 0 then none
  else if code = 1 then some "the name server was unable to interpret the query"
  else if code = 2 then some "the name server was unable to process this query"
  else if code = 3 then some "the domain name referenced in the query does not exist"
  else if code = 4 then some "the name server does not support the requested query"
  else if code = 5 then some "the name server refuses to perform the specified operation"
  else none

/-- `Message.Error` (source lines 1165-1167). -/
def Message.error (m : Message) : Option String := errorsMap m.header.responseCode

/-- `Message.UnmarshalBinary` (source lines 1076-1082): decode, then on
    success consult `Message.Error`. -/
def Message.unmarshalBinary (fuel : Nat) (data : List Nat) :
    Res (Message × Option String) :=
  match Message.readFrom fuel data with
  | .fuelOut => .fuelOut
  | .eof => .eof
  | .ok (m, _) => .ok (m, m.error)

/-- `Message.AddQuery` (source lines 1084-1087): append the query and bump the
    16-bit question count, which wraps at 65536. -/
def Message.addQuery (m : Message) (q : Query) : Message :=
  { m with
    question := m.question ++ [q]
    header := { m.header with
                questionCount := (m.header.questionCount + 1) % 65536 } }

/-! ## Well-formedness of in-memory values

These predicates record the invariants the Go type system imposes on a value
(each numeric field fits its declared width) together with the structural side
conditions of the claims: names are literal labels with a consistent length
octet and a single zero terminator at the end, section slots hold properly
tagged record variants, and the header counts match the section lengths. -/

def wfLabel (l : Label) : Bool :=
  decide (l.length < 256) && decide (l.name.length = l.length) &&
  decide (l.length &&& 192 ≠ 192)

def wfDomain : Domain → Bool
  | [] => false
  | [l] => decide (l = ⟨0, []⟩)
  | l :: l2 :: rest => wfLabel l && decide (0 < l.length) && wfDomain (l2 :: rest)

def wfQuery (q : Query) : Bool :=
  wfDomain q.domain && decide (q.qtype < 65536) && decide (q.qclass < 65536)

def wfRR (rr : ResourceRecord) : Bool :=
  wfQuery rr.query && decide (rr.timeToLive < 4294967296) &&
  decide (rr.length < 65536)

/-- The record variants whose payload decoder actually inverts the encoder:
    the dispatch of `Section.ReadFrom` covers A, NS, CNAME, SOA, PTR, MX, TXT
    and AAAA, but the SOA and MX payload readers misparse the stream (they go
    through `Section.ReadFrom` again) and every other variant is skipped as an
    unknown type, so only these six shapes can round-trip. -/
def goodReply : Reply → Bool
  | .a rr ip => wfRR rr && decide (rr.query.qtype = 1) && decide (ip.length = 4)
  | .ns rr d => wfRR rr && decide (rr.query.qtype = 2) && wfDomain d
  | .cname rr d => wfRR rr && decide (rr.query.qtype = 5) && wfDomain d
  | .ptr rr d => wfRR rr && decide (rr.query.qtype = 12) && wfDomain d
  | .txt rr d => wfRR rr && decide (rr.query.qtype = 16) && wfDomain d
  | .aaaa rr ip => wfRR rr && decide (rr.query.qtype = 28) && decide (ip.length = 16)
  | _ => false

def wfHeader (h : Header) : Bool :=
  decide (h.id < 65536) && decide (h.opcode < 16) &&
  decide (h.responseCode < 128) && decide (h.questionCount < 65536) &&
  decide (h.answerCount < 65536) && decide (h.authorityCount < 65536) &&
  decide (h.additionalCount < 65536)

def goodMessage (m : Message) : Bool :=
  wfHeader m.header &&
  decide (m.header.questionCount = m.question.length) &&
  decide (m.header.answerCount = m.answer.length) &&
  decide (m.header.authorityCount = m.authority.length) &&
  decide (m.header.additionalCount = m.additional.length) &&
  m.question.all wfQuery &&
  m.answer.all goodReply && m.authority.all goodReply &&
  m.additional.all goodReply

/-! ## Fuel budgets

The fuel parameter only has to dominate the recursion depth of the name
decoder; these budgets are enough fuel for every read performed while decoding
the encoding of a well-formed value. -/

def queryFuel (q : Query) : Nat := q.domain.length

def replyFuel : Reply → Nat
  | .a rr _ => rr.query.domain.length + 1
  | .ns rr d => rr.query.domain.length + d.length + 1
  | .cname rr d => rr.query.domain.length + d.length + 1
  | .ptr rr d => rr.query.domain.length + d.length + 1
  | .txt rr d => rr.query.domain.length + d.length + 1
  | .aaaa rr _ => rr.query.domain.length + 1
  | .soa rr _ _ _ _ _ _ _ => rr.query.domain.length + 1
  | .mx rr _ _ => rr.query.domain.length + 1
  | .mb rr _ => rr.query.domain.length + 1
  | .md rr _ => rr.query.domain.length + 1
  | .mf rr _ => rr.query.domain.length + 1
  | .mg rr _ => rr.query.domain.length + 1
  | .mr rr _ => rr.query.domain.length + 1
  | .hinfo rr _ _ => rr.query.domain.length + 1
  | .minfo rr _ _ => rr.query.domain.length + 1
  | .nilReply => 1

def msgFuel (m : Message) : Nat :=
  1 + (m.question.map queryFuel).sum + (m.answer.map replyFuel).sum +
  (m.authority.map replyFuel).sum + (m.additional.map replyFuel).sum

/-! ## Concrete inputs used by counterexamples and witnesses -/

/-- A header whose second control byte is 0x10: a reserved (Z) bit is set,
    response-code bits 0-3 are all zero. -/
def zBitHeaderBuf : List Nat := [0, 0, 0, 16, 0, 0, 0, 0, 0, 0, 0, 0]

/-- A buffer whose byte at position 1 starts a compression pointer whose
    14-bit offset is 1, i.e. the pointer references its own position. -/
def selfPtrBuf : List Nat := [0, 192, 1]

/-- A buffer holding the terminating empty name at offset 0 and, at
    position 1, a compression pointer whose encoded offset is 0. -/
def zeroPtrBuf : List Nat := [0, 192, 0]

/-- A message with 65535 questions and a question count of 65535: the one
    message state on which the next AddQuery wraps the 16-bit counter. -/
def maxCountMsg : Message :=
  ⟨⟨0, false, 0, false, false, false, false, 0, 65535, 0, 0, 0⟩,
   List.replicate 65535 ⟨[⟨0, []⟩], 1, 1⟩, [], [], []⟩

/-- The all-zero message, as produced by the Go zero value. -/
def zeroMsg : Message :=
  ⟨⟨0, false, 0, false, false, false, false, 0, 0, 0, 0, 0⟩, [], [], [], []⟩

/-- The root query `.` with type 1 and class 1. -/
def rootQuery : Query := ⟨[⟨0, []⟩], 1, 1⟩

/-- A message carrying a single mailbox (MB, type 7) answer record whose
    declared length matches its encoded payload. -/
def mbMsg : Message :=
  ⟨⟨1, false, 0, false, false, false, false, 0, 0, 1, 0, 0⟩, [],
   [.mb ⟨⟨[⟨0, []⟩], 7, 1⟩, 0, 1⟩ [⟨0, []⟩]], [], []⟩

/-- The decoded image of `mbMsg`: the MB record comes back as a nil slot. -/
def mbMsgDecoded : Message :=
  ⟨⟨1, false, 0, false, false, false, false, 0, 0, 1, 0, 0⟩, [],
   [.nilReply], [], []⟩

/-- The question/answer message of the specification's concrete scenario:
    one question for example.com (type 1, class 1) and one address answer
    with TTL 1 and address bytes 1.2.3.4. -/
def exampleMsg : Message :=
  ⟨⟨1, true, 0, false, false, true, true, 0, 1, 1, 0, 0⟩,
   [⟨[⟨7, [101, 120, 97, 109, 112, 108, 101]⟩, ⟨3, [99, 111, 109]⟩, ⟨0, []⟩], 1, 1⟩],
   [.a ⟨⟨[⟨7, [101, 120, 97, 109, 112, 108, 101]⟩, ⟨3, [99, 111, 109]⟩, ⟨0, []⟩], 1, 1⟩, 1, 4⟩
      [1, 2, 3, 4]],
   [], []⟩

/-- An unknown-type (99) record prefix with declared length 2, its two
    payload bytes, and two trailing bytes belonging to the next record. -/
def unknownTypeBuf : List Nat := [0, 0, 99, 0, 1, 0, 0, 0, 0, 0, 2, 7, 8, 5, 5]

/-- A 12-byte buffer that is exactly a header declaring one question and
    nothing after it. -/
def shortQuestionBuf : List Nat := [0, 0, 0, 0, 0, 1, 0, 0, 0, 0, 0, 0]

/-- A header declaring one question followed by a self-referential
    compression pointer at offset 12: the counts exceed the remaining bytes
    and the name decoder diverges. -/
def loopMsgBuf : List Nat := [0, 0, 0, 0, 0, 1, 0, 0, 0, 0, 0, 0, 192, 12]

/-- The claim that decoding `loopMsgBuf` exhausts every fuel, i.e. the
    unbounded recursion of the source never returns on it. -/
def loopMsgDiverges : Prop :=
  ∀ fuel, Message.readFrom fuel loopMsgBuf = .fuelOut

/-! ## Positional list lemmas -/

theorem getElem?_middle (pre mid post : List Nat) (i : Nat) (h : i < mid.length) :
    (pre ++ mid ++ post)[pre.length + i]? = mid[i]? := by
  rw [List.append_assoc, List.getElem?_append_right (by omega),
    Nat.add_sub_cancel_left, List.getElem?_append]
  simp [h]

theorem drop_middle (pre mid post : List Nat) (i : Nat) :
    (pre ++ mid ++ post).drop (pre.length + i) = (mid ++ post).drop i := by
  rw [List.append_assoc, List.drop_append]

theorem length_append3 (pre mid post : List Nat) :
    (pre ++ mid ++ post).length = pre.length + mid.length + post.length := by
  simp [List.length_append]; omega

theorem readU16_snd (buf : List Nat) (pos v p : Nat)
    (h : readU16 buf pos = some (v, p)) : p = pos + 2 := by
  unfold readU16 at h
  cases h0 : buf[pos]? <;> cases h1 : buf[pos+1]? <;> rw [h0, h1] at h <;>
    simp_all

theorem getElem?_head (pre post : List Nat) (b : Nat) (rest : List Nat) :
    (pre ++ (b :: rest) ++ post)[pre.length]? = some b := by
  have h := getElem?_middle pre (b :: rest) post 0 (by simp)
  simpa using h

/-! ## Encode/decode round-trip lemmas -/

theorem wfLabel_iff (l : Label) :
    wfLabel l = true ↔
      l.length < 256 ∧ l.name.length = l.length ∧ l.length &&& 192 ≠ 192 := by
  simp [wfLabel, and_assoc]

theorem Label.offset_eq_zero (l : Label) (h : l.length &&& 192 ≠ 192) :
    l.offset = 0 := by
  simp [Label.offset, h]

theorem label_roundtrip (l : Label) (pre post : List Nat)
    (hwf : wfLabel l = true) :
    Label.readFrom (pre ++ l.writeTo ++ post) pre.length =
      some (l, pre.length + 1 + l.length) := by
  obtain ⟨h256, hlen, htag⟩ := (wfLabel_iff l).1 hwf
  have hmod : l.length % 256 = l.length := Nat.mod_eq_of_lt h256
  have hb : (pre ++ l.writeTo ++ post)[pre.length]? = some l.length := by
    rw [Label.writeTo, hmod]
    exact getElem?_head pre post l.length l.name
  have hL : pre.length + 1 + l.length ≤ (pre ++ l.writeTo ++ post).length := by
    rw [length_append3, Label.writeTo]
    simp only [List.length_cons]
    omega
  have hdrop :
      (((pre ++ l.writeTo ++ post).drop (pre.length + 1)).take l.length) =
        l.name := by
    rw [drop_middle pre l.writeTo post 1, Label.writeTo, List.cons_append,
      List.drop_succ_cons, List.drop_zero, ← hlen,
      List.take_append_of_le_length (le_refl _), List.take_length]
  unfold Label.readFrom
  rw [hb]
  simp only [htag, if_false, hL, if_true, hdrop, if_neg htag, if_pos hL]

theorem Domain.writeTo_cons (l : Label) (rest : Domain) :
    Domain.writeTo (l :: rest) = l.writeTo ++ Domain.writeTo rest := by
  simp [Domain.writeTo]

theorem wu16_length (v : Nat) : (wu16 v).length = 2 := rfl

theorem wu32_length (v : Nat) : (wu32 v).length = 4 := rfl

theorem wu16_roundtrip (v : Nat) (pre post : List Nat) (hv : v < 65536) :
    readU16 (pre ++ wu16 v ++ post) pre.length = some (v, pre.length + 2) := by
  have h0 : (pre ++ wu16 v ++ post)[pre.length]? = some (v / 256 % 256) := by
    simpa using getElem?_middle pre (wu16 v) post 0 (by simp [wu16])
  have h1 : (pre ++ wu16 v ++ post)[pre.length + 1]? = some (v % 256) := by
    simpa [wu16] using getElem?_middle pre (wu16 v) post 1 (by simp [wu16])
  unfold readU16
  rw [h0, h1]
  have : v / 256 % 256 * 256 + v % 256 = v := by omega
  simp [this]

theorem wu32_roundtrip (v : Nat) (pre post : List Nat) (hv : v < 4294967296) :
    readU32 (pre ++ wu32 v ++ post) pre.length = some (v, pre.length + 4) := by
  have h0 : (pre ++ wu32 v ++ post)[pre.length]? = some (v / 16777216 % 256) := by
    simpa using getElem?_middle pre (wu32 v) post 0 (by simp [wu32])
  have h1 : (pre ++ wu32 v ++ post)[pre.length + 1]? = some (v / 65536 % 256) := by
    simpa [wu32] using getElem?_middle pre (wu32 v) post 1 (by simp [wu32])
  have h2 : (pre ++ wu32 v ++ post)[pre.length + 2]? = some (v / 256 % 256) := by
    simpa [wu32] using getElem?_middle pre (wu32 v) post 2 (by simp [wu32])
  have h3 : (pre ++ wu32 v ++ post)[pre.length + 3]? = some (v % 256) := by
    simpa [wu32] using getElem?_middle pre (wu32 v) post 3 (by simp [wu32])
  unfold readU32
  rw [h0, h1, h2, h3]
  have : v / 16777216 % 256 * 16777216 + v / 65536 % 256 * 65536 +
      v / 256 % 256 * 256 + v % 256 = v := by omega
  simp [this]

theorem bytes_roundtrip (mid pre post : List Nat) (k : Nat)
    (hk : mid.length = k) :
    readBytes k (pre ++ mid ++ post) pre.length = some (mid, pre.length + k) := by
  unfold readBytes
  rw [if_pos (by rw [length_append3]; omega)]
  have hdrop : ((pre ++ mid ++ post).drop pre.length).take k = mid := by
    have h := drop_middle pre mid post 0
    simp only [Nat.add_zero, List.drop_zero] at h
    rw [h, ← hk, List.take_append_of_le_length (le_refl _), List.take_length]
  rw [hdrop]

theorem domain_roundtrip (d : Domain) :
    ∀ (pre post : List Nat) (acc : Domain) (fuel : Nat),
      wfDomain d = true → d.length ≤ fuel →
      Domain.readFromAux fuel (pre ++ d.writeTo ++ post) pre.length acc =
        .ok (acc ++ d) (pre.length + d.writeTo.length) := by
  induction d with
  | nil => intro _ _ _ _ hwf _; simp [wfDomain] at hwf
  | cons l rest ih =>
    intro pre post acc fuel hwf hfuel
    obtain ⟨n, rfl⟩ : ∃ n, fuel = n + 1 := ⟨fuel - 1, by simp at hfuel; omega⟩
    cases rest with
    | nil =>
      have hl : l = ⟨0, []⟩ := by simpa [wfDomain] using hwf
      subst hl
      have hw : Domain.writeTo [(⟨0, []⟩ : Label)] = Label.writeTo ⟨0, []⟩ := by
        simp [Domain.writeTo]
      have hlab := label_roundtrip ⟨0, []⟩ pre post (by decide)
      rw [hw]
      simp only [Domain.readFromAux, hlab]
      norm_num [Label.offset, Label.writeTo]
    | cons l2 rest2 =>
      have hsplit : wfLabel l = true ∧ 0 < l.length ∧
          wfDomain (l2 :: rest2) = true := by
        simpa [wfDomain, and_assoc] using hwf
      obtain ⟨hwl, hpos, hwr⟩ := hsplit
      have hlenl : l.writeTo.length = 1 + l.length := by
        obtain ⟨-, hlen, -⟩ := (wfLabel_iff l).1 hwl
        simp [Label.writeTo, hlen]
        omega
      have heq : pre ++ Domain.writeTo (l :: l2 :: rest2) ++ post =
          pre ++ l.writeTo ++ (Domain.writeTo (l2 :: rest2) ++ post) := by
        rw [Domain.writeTo_cons]
        simp [List.append_assoc]
      rw [heq]
      have hlab := label_roundtrip l pre (Domain.writeTo (l2 :: rest2) ++ post) hwl
      simp only [Domain.readFromAux, hlab]
      rw [if_neg (by simp [Label.offset_eq_zero l ((wfLabel_iff l).1 hwl).2.2]),
        if_neg (by omega)]
      have heq2 : pre ++ l.writeTo ++ (Domain.writeTo (l2 :: rest2) ++ post) =
          (pre ++ l.writeTo) ++ Domain.writeTo (l2 :: rest2) ++ post := by
        simp [List.append_assoc]
      have hpre2 : (pre ++ l.writeTo).length = pre.length + 1 + l.length := by
        simp [List.length_append, hlenl]; omega
      have hrec := ih (pre ++ l.writeTo) post (acc ++ [l]) n hwr
        (by simp at hfuel ⊢; omega)
      rw [heq2, ← hpre2]
      rw [hrec]
      have hacc : (acc ++ [l]) ++ (l2 :: rest2) = acc ++ (l :: l2 :: rest2) := by
        simp
      have hlens : (pre ++ l.writeTo).length + (Domain.writeTo (l2 :: rest2)).length =
          pre.length + (Domain.writeTo (l :: l2 :: rest2)).length := by
        have h1 : Domain.writeTo (l :: l2 :: rest2) =
            l.writeTo ++ Domain.writeTo (l2 :: rest2) :=
          Domain.writeTo_cons l (l2 :: rest2)
        rw [h1]
        simp [List.length_append, hlenl]
        omega
      rw [hacc, hlens]

theorem query_roundtrip (q : Query) (pre post : List Nat) (fuel : Nat)
    (hwf : wfQuery q = true) (hfuel : q.domain.length ≤ fuel) :
    Query.readFrom fuel (pre ++ q.writeTo ++ post) pre.length =
      .ok (q, pre.length + q.writeTo.length) := by
  obtain ⟨hwd, ht, hc⟩ : wfDomain q.domain = true ∧ q.qtype < 65536 ∧
      q.qclass < 65536 := by
    simpa [wfQuery, and_assoc] using hwf
  have heq1 : pre ++ q.writeTo ++ post =
      pre ++ Domain.writeTo q.domain ++ (wu16 q.qtype ++ (wu16 q.qclass ++ post)) := by
    simp [Query.writeTo, List.append_assoc]
  have heq2 : pre ++ q.writeTo ++ post =
      (pre ++ Domain.writeTo q.domain) ++ wu16 q.qtype ++ (wu16 q.qclass ++ post) := by
    simp [Query.writeTo, List.append_assoc]
  have heq3 : pre ++ q.writeTo ++ post =
      ((pre ++ Domain.writeTo q.domain) ++ wu16 q.qtype) ++ wu16 q.qclass ++ post := by
    simp [Query.writeTo, List.append_assoc]
  have hdom := domain_roundtrip q.domain pre
    (wu16 q.qtype ++ (wu16 q.qclass ++ post)) [] fuel hwd hfuel
  rw [← heq1] at hdom
  have ht16 := wu16_roundtrip q.qtype (pre ++ Domain.writeTo q.domain)
    (wu16 q.qclass ++ post) ht
  rw [← heq2, List.length_append] at ht16
  have hc16 := wu16_roundtrip q.qclass
    ((pre ++ Domain.writeTo q.domain) ++ wu16 q.qtype) post hc
  have hlen2 : ((pre ++ Domain.writeTo q.domain) ++ wu16 q.qtype).length =
      pre.length + (Domain.writeTo q.domain).length + 2 := by
    simp [wu16]
    omega
  rw [← heq3, hlen2] at hc16
  unfold Query.readFrom
  simp only [hdom, List.nil_append, ht16, hc16]
  have hpos : pre.length + (Domain.writeTo q.domain).length + 2 + 2 =
      pre.length + q.writeTo.length := by
    simp [Query.writeTo, wu16]
    omega
  rw [hpos]

theorem rr_roundtrip (rr : ResourceRecord) (pre post : List Nat) (fuel : Nat)
    (hwf : wfRR rr = true) (hfuel : rr.query.domain.length ≤ fuel) :
    ResourceRecord.readFrom fuel (pre ++ rr.writeTo ++ post) pre.length =
      .ok (rr, pre.length + rr.writeTo.length) := by
  obtain ⟨hwq, httl, hlen⟩ : wfQuery rr.query = true ∧
      rr.timeToLive < 4294967296 ∧ rr.length < 65536 := by
    simpa [wfRR, and_assoc] using hwf
  have heq1 : pre ++ rr.writeTo ++ post =
      pre ++ rr.query.writeTo ++ (wu32 rr.timeToLive ++ (wu16 rr.length ++ post)) := by
    simp [ResourceRecord.writeTo, List.append_assoc]
  have heq2 : pre ++ rr.writeTo ++ post =
      (pre ++ rr.query.writeTo) ++ wu32 rr.timeToLive ++ (wu16 rr.length ++ post) := by
    simp [ResourceRecord.writeTo, List.append_assoc]
  have heq3 : pre ++ rr.writeTo ++ post =
      ((pre ++ rr.query.writeTo) ++ wu32 rr.timeToLive) ++ wu16 rr.length ++ post := by
    simp [ResourceRecord.writeTo, List.append_assoc]
  have hq := query_roundtrip rr.query pre
    (wu32 rr.timeToLive ++ (wu16 rr.length ++ post)) fuel hwq hfuel
  rw [← heq1] at hq
  have h32 := wu32_roundtrip rr.timeToLive (pre ++ rr.query.writeTo)
    (wu16 rr.length ++ post) httl
  rw [← heq2, List.length_append] at h32
  have h16 := wu16_roundtrip rr.length
    ((pre ++ rr.query.writeTo) ++ wu32 rr.timeToLive) post hlen
  have hlen2 : ((pre ++ rr.query.writeTo) ++ wu32 rr.timeToLive).length =
      pre.length + rr.query.writeTo.length + 4 := by
    simp [wu32]
    omega
  rw [← heq3, hlen2] at h16
  unfold ResourceRecord.readFrom
  simp only [hq, h32, h16]
  have hpos : pre.length + rr.query.writeTo.length + 4 + 2 =
      pre.length + rr.writeTo.length := by
    simp [ResourceRecord.writeTo, wu32, wu16]
    omega
  rw [hpos]


theorem ctrl0_spec : ∀ op : Nat, op < 16 → ∀ qr aa tc rd : Bool,
    ((((op <<< 3) % 256 ||| (if qr then 128 else 0) ||| (if aa then 4 else 0) |||
        (if tc then 2 else 0) ||| (if rd then 1 else 0)) &&& 128 == 128) = qr ∧
      ((((op <<< 3) % 256 ||| (if qr then 128 else 0) ||| (if aa then 4 else 0) |||
        (if tc then 2 else 0) ||| (if rd then 1 else 0)) &&& 127) >>> 3) = op ∧
      (((op <<< 3) % 256 ||| (if qr then 128 else 0) ||| (if aa then 4 else 0) |||
        (if tc then 2 else 0) ||| (if rd then 1 else 0)) &&& 4 == 4) = aa ∧
      (((op <<< 3) % 256 ||| (if qr then 128 else 0) ||| (if aa then 4 else 0) |||
        (if tc then 2 else 0) ||| (if rd then 1 else 0)) &&& 2 == 2) = tc ∧
      (((op <<< 3) % 256 ||| (if qr then 128 else 0) ||| (if aa then 4 else 0) |||
        (if tc then 2 else 0) ||| (if rd then 1 else 0)) &&& 1 == 1) = rd) := by
  decide

theorem ctrl1_spec : ∀ rc : Nat, rc < 128 → ∀ ra : Bool,
    (((rc ||| (if ra then 128 else 0)) &&& 128 == 128) = ra ∧
      (rc ||| (if ra then 128 else 0)) &&& 127 = rc) := by
  decide

theorem header_writeTo_length (h : Header) : h.writeTo.length = 12 := by
  simp [Header.writeTo, wu16]

theorem header_roundtrip (h : Header) (post : List Nat)
    (hwf : wfHeader h = true) :
    Header.readFrom (h.writeTo ++ post) 0 = some (h, 12) := by
  obtain ⟨hid, hop, hrc, hqc, hac, hauc, hadc⟩ :
      h.id < 65536 ∧ h.opcode < 16 ∧ h.responseCode < 128 ∧
      h.questionCount < 65536 ∧ h.answerCount < 65536 ∧
      h.authorityCount < 65536 ∧ h.additionalCount < 65536 := by
    simpa [wfHeader, and_assoc] using hwf
  obtain ⟨hid', qr, op, aa, tc, rd, ra, rc, qc, ac, auc, adc⟩ := h
  simp only at hid hop hrc hqc hac hauc hadc
  set c0 : Nat := (op <<< 3) % 256 ||| (if qr then 128 else 0) |||
    (if aa then 4 else 0) ||| (if tc then 2 else 0) |||
    (if rd then 1 else 0) with hc0
  set c1 : Nat := rc ||| (if ra then 128 else 0) with hc1
  set hh : Header := ⟨hid', qr, op, aa, tc, rd, ra, rc, qc, ac, auc, adc⟩
    with hhh
  have hw : hh.writeTo = wu16 hid' ++ [c0, c1] ++ wu16 qc ++ wu16 ac ++
      wu16 auc ++ wu16 adc := rfl
  have hbl : (hh.writeTo ++ post).length = 12 + post.length := by
    rw [List.length_append, header_writeTo_length]
  have hu1 : readU16 (hh.writeTo ++ post) 0 = some (hid', 2) := by
    have heq : hh.writeTo ++ post = [] ++ wu16 hid' ++
        ([c0, c1] ++ wu16 qc ++ wu16 ac ++ wu16 auc ++ wu16 adc ++ post) := by
      simp [hw, List.append_assoc]
    rw [heq]
    simpa using wu16_roundtrip hid' []
      ([c0, c1] ++ wu16 qc ++ wu16 ac ++ wu16 auc ++ wu16 adc ++ post) hid
  have hb2 : (hh.writeTo ++ post)[2]? = some c0 := by
    have heq : hh.writeTo ++ post = wu16 hid' ++ [c0, c1] ++
        (wu16 qc ++ wu16 ac ++ wu16 auc ++ wu16 adc ++ post) := by
      simp [hw, List.append_assoc]
    rw [heq]
    simpa [wu16] using getElem?_middle (wu16 hid') [c0, c1]
      (wu16 qc ++ wu16 ac ++ wu16 auc ++ wu16 adc ++ post) 0 (by simp)
  have hb3 : (hh.writeTo ++ post)[3]? = some c1 := by
    have heq : hh.writeTo ++ post = wu16 hid' ++ [c0, c1] ++
        (wu16 qc ++ wu16 ac ++ wu16 auc ++ wu16 adc ++ post) := by
      simp [hw, List.append_assoc]
    rw [heq]
    simpa [wu16] using getElem?_middle (wu16 hid') [c0, c1]
      (wu16 qc ++ wu16 ac ++ wu16 auc ++ wu16 adc ++ post) 1 (by simp)
  have hu2 : readU16 (hh.writeTo ++ post) 4 = some (qc, 6) := by
    have heq : hh.writeTo ++ post = (wu16 hid' ++ [c0, c1]) ++ wu16 qc ++
        (wu16 ac ++ wu16 auc ++ wu16 adc ++ post) := by
      simp [hw, List.append_assoc]
    have hl : (wu16 hid' ++ [c0, c1]).length = 4 := by simp [wu16]
    rw [heq]
    have := wu16_roundtrip qc (wu16 hid' ++ [c0, c1])
      (wu16 ac ++ wu16 auc ++ wu16 adc ++ post) hqc
    rw [hl] at this
    simpa using this
  have hu3 : readU16 (hh.writeTo ++ post) 6 = some (ac, 8) := by
    have heq : hh.writeTo ++ post = (wu16 hid' ++ [c0, c1] ++ wu16 qc) ++
        wu16 ac ++ (wu16 auc ++ wu16 adc ++ post) := by
      simp [hw, List.append_assoc]
    have hl : (wu16 hid' ++ [c0, c1] ++ wu16 qc).length = 6 := by simp [wu16]
    rw [heq]
    have := wu16_roundtrip ac (wu16 hid' ++ [c0, c1] ++ wu16 qc)
      (wu16 auc ++ wu16 adc ++ post) hac
    rw [hl] at this
    simpa using this
  have hu4 : readU16 (hh.writeTo ++ post) 8 = some (auc, 10) := by
    have heq : hh.writeTo ++ post =
        (wu16 hid' ++ [c0, c1] ++ wu16 qc ++ wu16 ac) ++ wu16 auc ++
        (wu16 adc ++ post) := by
      simp [hw, List.append_assoc]
    have hl : (wu16 hid' ++ [c0, c1] ++ wu16 qc ++ wu16 ac).length = 8 := by
      simp [wu16]
    rw [heq]
    have := wu16_roundtrip auc (wu16 hid' ++ [c0, c1] ++ wu16 qc ++ wu16 ac)
      (wu16 adc ++ post) hauc
    rw [hl] at this
    simpa using this
  have hu5 : readU16 (hh.writeTo ++ post) 10 = some (adc, 12) := by
    have heq : hh.writeTo ++ post =
        (wu16 hid' ++ [c0, c1] ++ wu16 qc ++ wu16 ac ++ wu16 auc) ++
        wu16 adc ++ post := by
      simp [hw, List.append_assoc]
    have hl : (wu16 hid' ++ [c0, c1] ++ wu16 qc ++ wu16 ac ++ wu16 auc).length =
        10 := by simp [wu16]
    rw [heq]
    have := wu16_roundtrip adc
      (wu16 hid' ++ [c0, c1] ++ wu16 qc ++ wu16 ac ++ wu16 auc) post hadc
    rw [hl] at this
    simpa using this
  have hmin : min (2 + 2) (hh.writeTo ++ post).length = 4 := by
    rw [hbl]; omega
  obtain ⟨s1, s2, s3, s4, s5⟩ := ctrl0_spec op hop qr aa tc rd
  obtain ⟨t1, t2⟩ := ctrl1_spec rc hrc ra
  rw [← hc0] at s1 s2 s3 s4 s5
  rw [← hc1] at t1 t2
  unfold Header.readFrom
  simp only [hu1, hb2, hb3, Option.getD_some, hmin, hu2, hu3, hu4, hu5]
  rw [hhh, s1, s2, s3, s4, s5, t1, t2]

theorem entry_roundtrip (r : Reply) (pre post : List Nat) (fuel : Nat)
    (hgood : goodReply r = true) (hfuel : replyFuel r ≤ fuel) :
    sectionEntryReadFrom fuel (pre ++ Reply.writeTo r ++ post) pre.length =
      .ok (r, pre.length + (Reply.writeTo r).length) := by
  obtain ⟨n, rfl⟩ : ∃ n, fuel = n + 1 :=
    ⟨fuel - 1, by cases r <;> simp [replyFuel] at hfuel <;> omega⟩
  cases r with
  | a rr ip =>
    obtain ⟨hwrr, htype, hip⟩ : wfRR rr = true ∧ rr.query.qtype = 1 ∧
        ip.length = 4 := by
      simpa [goodReply, and_assoc] using hgood
    have hfr : rr.query.domain.length ≤ n + 1 := by
      simp [replyFuel] at hfuel; omega
    have heq : pre ++ Reply.writeTo (.a rr ip) ++ post =
        pre ++ rr.writeTo ++ (ip ++ post) := by
      simp [Reply.writeTo, List.append_assoc]
    have hrr := rr_roundtrip rr pre (ip ++ post) (n+1) hwrr hfr
    rw [← heq] at hrr
    have heq2 : pre ++ Reply.writeTo (.a rr ip) ++ post =
        (pre ++ rr.writeTo) ++ ip ++ post := by
      simp [Reply.writeTo, List.append_assoc]
    have hbytes := bytes_roundtrip ip (pre ++ rr.writeTo) post 4 hip
    rw [← heq2, List.length_append] at hbytes
    simp only [sectionEntryReadFrom, hrr, htype, if_pos, hbytes]
    have hpos : pre.length + rr.writeTo.length + 4 =
        pre.length + (Reply.writeTo (.a rr ip)).length := by
      simp [Reply.writeTo, hip]
      omega
    rw [hpos]
  | ns rr d =>
    obtain ⟨hwrr, htype, hd⟩ : wfRR rr = true ∧ rr.query.qtype = 2 ∧
        wfDomain d = true := by
      simpa [goodReply, and_assoc] using hgood
    have hfr : rr.query.domain.length ≤ n + 1 := by
      simp [replyFuel] at hfuel; omega
    have hfd : d.length ≤ n + 1 := by
      simp [replyFuel] at hfuel; omega
    have heq : pre ++ Reply.writeTo (.ns rr d) ++ post =
        pre ++ rr.writeTo ++ (Domain.writeTo d ++ post) := by
      simp [Reply.writeTo, List.append_assoc]
    have hrr := rr_roundtrip rr pre (Domain.writeTo d ++ post) (n+1) hwrr hfr
    rw [← heq] at hrr
    have heq2 : pre ++ Reply.writeTo (.ns rr d) ++ post =
        (pre ++ rr.writeTo) ++ Domain.writeTo d ++ post := by
      simp [Reply.writeTo, List.append_assoc]
    have hdom := domain_roundtrip d (pre ++ rr.writeTo) post [] (n+1) hd hfd
    rw [← heq2, List.length_append] at hdom
    simp only [sectionEntryReadFrom, hrr, htype, hdom]
    have hpos : pre.length + rr.writeTo.length + (Domain.writeTo d).length =
        pre.length + (Reply.writeTo (.ns rr d)).length := by
      simp [Reply.writeTo]
      omega
    norm_num
    rw [hpos]
  | cname rr d =>
    obtain ⟨hwrr, htype, hd⟩ : wfRR rr = true ∧ rr.query.qtype = 5 ∧
        wfDomain d = true := by
      simpa [goodReply, and_assoc] using hgood
    have hfr : rr.query.domain.length ≤ n + 1 := by
      simp [replyFuel] at hfuel; omega
    have hfd : d.length ≤ n + 1 := by
      simp [replyFuel] at hfuel; omega
    have heq : pre ++ Reply.writeTo (.cname rr d) ++ post =
        pre ++ rr.writeTo ++ (Domain.writeTo d ++ post) := by
      simp [Reply.writeTo, List.append_assoc]
    have hrr := rr_roundtrip rr pre (Domain.writeTo d ++ post) (n+1) hwrr hfr
    rw [← heq] at hrr
    have heq2 : pre ++ Reply.writeTo (.cname rr d) ++ post =
        (pre ++ rr.writeTo) ++ Domain.writeTo d ++ post := by
      simp [Reply.writeTo, List.append_assoc]
    have hdom := domain_roundtrip d (pre ++ rr.writeTo) post [] (n+1) hd hfd
    rw [← heq2, List.length_append] at hdom
    simp only [sectionEntryReadFrom, hrr, htype, hdom]
    have hpos : pre.length + rr.writeTo.length + (Domain.writeTo d).length =
        pre.length + (Reply.writeTo (.cname rr d)).length := by
      simp [Reply.writeTo]
      omega
    norm_num
    rw [hpos]
  | ptr rr d =>
    obtain ⟨hwrr, htype, hd⟩ : wfRR rr = true ∧ rr.query.qtype = 12 ∧
        wfDomain d = true := by
      simpa [goodReply, and_assoc] using hgood
    have hfr : rr.query.domain.length ≤ n + 1 := by
      simp [replyFuel] at hfuel; omega
    have hfd : d.length ≤ n + 1 := by
      simp [replyFuel] at hfuel; omega
    have heq : pre ++ Reply.writeTo (.ptr rr d) ++ post =
        pre ++ rr.writeTo ++ (Domain.writeTo d ++ post) := by
      simp [Reply.writeTo, List.append_assoc]
    have hrr := rr_roundtrip rr pre (Domain.writeTo d ++ post) (n+1) hwrr hfr
    rw [← heq] at hrr
    have heq2 : pre ++ Reply.writeTo (.ptr rr d) ++ post =
        (pre ++ rr.writeTo) ++ Domain.writeTo d ++ post := by
      simp [Reply.writeTo, List.append_assoc]
    have hdom := domain_roundtrip d (pre ++ rr.writeTo) post [] (n+1) hd hfd
    rw [← heq2, List.length_append] at hdom
    simp only [sectionEntryReadFrom, hrr, htype, hdom]
    have hpos : pre.length + rr.writeTo.length + (Domain.writeTo d).length =
        pre.length + (Reply.writeTo (.ptr rr d)).length := by
      simp [Reply.writeTo]
      omega
    norm_num
    rw [hpos]
  | txt rr d =>
    obtain ⟨hwrr, htype, hd⟩ : wfRR rr = true ∧ rr.query.qtype = 16 ∧
        wfDomain d = true := by
      simpa [goodReply, and_assoc] using hgood
    have hfr : rr.query.domain.length ≤ n + 1 := by
      simp [replyFuel] at hfuel; omega
    have hfd : d.length ≤ n + 1 := by
      simp [replyFuel] at hfuel; omega
    have heq : pre ++ Reply.writeTo (.txt rr d) ++ post =
        pre ++ rr.writeTo ++ (Domain.writeTo d ++ post) := by
      simp [Reply.writeTo, List.append_assoc]
    have hrr := rr_roundtrip rr pre (Domain.writeTo d ++ post) (n+1) hwrr hfr
    rw [← heq] at hrr
    have heq2 : pre ++ Reply.writeTo (.txt rr d) ++ post =
        (pre ++ rr.writeTo) ++ Domain.writeTo d ++ post := by
      simp [Reply.writeTo, List.append_assoc]
    have hdom := domain_roundtrip d (pre ++ rr.writeTo) post [] (n+1) hd hfd
    rw [← heq2, List.length_append] at hdom
    simp only [sectionEntryReadFrom, hrr, htype, hdom]
    have hpos : pre.length + rr.writeTo.length + (Domain.writeTo d).length =
        pre.length + (Reply.writeTo (.txt rr d)).length := by
      simp [Reply.writeTo]
      omega
    norm_num
    rw [hpos]
  | aaaa rr ip =>
    obtain ⟨hwrr, htype, hip⟩ : wfRR rr = true ∧ rr.query.qtype = 28 ∧
        ip.length = 16 := by
      simpa [goodReply, and_assoc] using hgood
    have hfr : rr.query.domain.length ≤ n + 1 := by
      simp [replyFuel] at hfuel; omega
    have heq : pre ++ Reply.writeTo (.aaaa rr ip) ++ post =
        pre ++ rr.writeTo ++ (ip ++ post) := by
      simp [Reply.writeTo, List.append_assoc]
    have hrr := rr_roundtrip rr pre (ip ++ post) (n+1) hwrr hfr
    rw [← heq] at hrr
    have heq2 : pre ++ Reply.writeTo (.aaaa rr ip) ++ post =
        (pre ++ rr.writeTo) ++ ip ++ post := by
      simp [Reply.writeTo, List.append_assoc]
    have hbytes := bytes_roundtrip ip (pre ++ rr.writeTo) post 16 hip
    rw [← heq2, List.length_append] at hbytes
    simp only [sectionEntryReadFrom, hrr, htype, if_pos, hbytes]
    have hpos : pre.length + rr.writeTo.length + 16 =
        pre.length + (Reply.writeTo (.aaaa rr ip)).length := by
      simp [Reply.writeTo, hip]
      omega
    norm_num
    rw [hpos]
  | soa rr o mbx sr rf rt e mn => simp [goodReply] at hgood
  | mx rr p ex => simp [goodReply] at hgood
  | mb rr d => simp [goodReply] at hgood
  | md rr d => simp [goodReply] at hgood
  | mf rr d => simp [goodReply] at hgood
  | mg rr d => simp [goodReply] at hgood
  | mr rr d => simp [goodReply] at hgood
  | hinfo rr cpu os => simp [goodReply] at hgood
  | minfo rr r1 r2 => simp [goodReply] at hgood
  | nilReply => simp [goodReply] at hgood

theorem section_roundtrip (rs : List Reply) :
    ∀ (pre post : List Nat) (fuel : Nat), rs.all goodReply = true →
      (rs.map replyFuel).sum ≤ fuel →
      sectionListReadFrom fuel rs.length
          (pre ++ (rs.map Reply.writeTo).flatten ++ post) pre.length =
        .ok (rs, pre.length + ((rs.map Reply.writeTo).flatten).length) := by
  induction rs with
  | nil =>
    intro pre post fuel _ _
    simp [sectionListReadFrom]
  | cons r rs ih =>
    intro pre post fuel hgood hfuel
    rw [List.all_cons, Bool.and_eq_true] at hgood
    obtain ⟨hg, hgs⟩ := hgood
    simp only [List.map_cons, List.sum_cons] at hfuel
    have hfr : replyFuel r ≤ fuel := by omega
    have hfs : (rs.map replyFuel).sum ≤ fuel := by omega
    have heq : pre ++ ((r :: rs).map Reply.writeTo).flatten ++ post =
        pre ++ Reply.writeTo r ++ ((rs.map Reply.writeTo).flatten ++ post) := by
      simp [List.append_assoc]
    have hentry := entry_roundtrip r pre
      ((rs.map Reply.writeTo).flatten ++ post) fuel hg hfr
    rw [← heq] at hentry
    have heq2 : pre ++ ((r :: rs).map Reply.writeTo).flatten ++ post =
        (pre ++ Reply.writeTo r) ++ (rs.map Reply.writeTo).flatten ++ post := by
      simp [List.append_assoc]
    have hrest := ih (pre ++ Reply.writeTo r) post fuel hgs hfs
    rw [← heq2, List.length_append] at hrest
    have hcount : (r :: rs).length = rs.length + 1 := rfl
    rw [hcount]
    simp only [sectionListReadFrom, hentry, hrest]
    have hpos : pre.length + (Reply.writeTo r).length +
        ((rs.map Reply.writeTo).flatten).length =
        pre.length + (((r :: rs).map Reply.writeTo).flatten).length := by
      simp
      omega
    rw [hpos]

theorem question_roundtrip (qs : List Query) :
    ∀ (pre post : List Nat) (fuel : Nat), qs.all wfQuery = true →
      (qs.map queryFuel).sum ≤ fuel →
      questionReadFrom fuel qs.length
          (pre ++ (qs.map Query.writeTo).flatten ++ post) pre.length =
        .ok (qs, pre.length + ((qs.map Query.writeTo).flatten).length) := by
  induction qs with
  | nil =>
    intro pre post fuel _ _
    simp [questionReadFrom]
  | cons q qs ih =>
    intro pre post fuel hwf hfuel
    rw [List.all_cons, Bool.and_eq_true] at hwf
    obtain ⟨hq, hqs⟩ := hwf
    simp only [List.map_cons, List.sum_cons] at hfuel
    have hfq : queryFuel q ≤ fuel := by omega
    have hfs : (qs.map queryFuel).sum ≤ fuel := by omega
    have heq : pre ++ ((q :: qs).map Query.writeTo).flatten ++ post =
        pre ++ Query.writeTo q ++ ((qs.map Query.writeTo).flatten ++ post) := by
      simp [List.append_assoc]
    have hquery := query_roundtrip q pre
      ((qs.map Query.writeTo).flatten ++ post) fuel hq hfq
    rw [← heq] at hquery
    have heq2 : pre ++ ((q :: qs).map Query.writeTo).flatten ++ post =
        (pre ++ Query.writeTo q) ++ (qs.map Query.writeTo).flatten ++ post := by
      simp [List.append_assoc]
    have hrest := ih (pre ++ Query.writeTo q) post fuel hqs hfs
    rw [← heq2, List.length_append] at hrest
    have hcount : (q :: qs).length = qs.length + 1 := rfl
    rw [hcount]
    simp only [questionReadFrom, hquery, hrest]
    have hpos : pre.length + (Query.writeTo q).length +
        ((qs.map Query.writeTo).flatten).length =
        pre.length + (((q :: qs).map Query.writeTo).flatten).length := by
      simp
      omega
    rw [hpos]

theorem message_roundtrip (m : Message) (fuel : Nat)
    (hgood : goodMessage m = true) (hfuel : msgFuel m ≤ fuel) :
    Message.readFrom fuel m.writeTo = .ok (m, m.writeTo.length) := by
  obtain ⟨hwh, hqc, hac, hauc, hadc, hq, ha, hau, had⟩ :
      wfHeader m.header = true ∧
      m.header.questionCount = m.question.length ∧
      m.header.answerCount = m.answer.length ∧
      m.header.authorityCount = m.authority.length ∧
      m.header.additionalCount = m.additional.length ∧
      m.question.all wfQuery = true ∧ m.answer.all goodReply = true ∧
      m.authority.all goodReply = true ∧ m.additional.all goodReply = true := by
    simpa [goodMessage, and_assoc] using hgood
  have hfq : (m.question.map queryFuel).sum ≤ fuel := by
    simp [msgFuel] at hfuel; omega
  have hfa : (m.answer.map replyFuel).sum ≤ fuel := by
    simp [msgFuel] at hfuel; omega
  have hfu : (m.authority.map replyFuel).sum ≤ fuel := by
    simp [msgFuel] at hfuel; omega
  have hfd : (m.additional.map replyFuel).sum ≤ fuel := by
    simp [msgFuel] at hfuel; omega
  have hH : Header.readFrom m.writeTo 0 = some (m.header, 12) := by
    have heq : m.writeTo = m.header.writeTo ++
        ((m.question.map Query.writeTo).flatten ++
          ((m.answer.map Reply.writeTo).flatten ++
            ((m.authority.map Reply.writeTo).flatten ++
              (m.additional.map Reply.writeTo).flatten))) := by
      simp [Message.writeTo, List.append_assoc]
    rw [heq]
    exact header_roundtrip m.header _ hwh
  have hQ : questionReadFrom fuel m.question.length m.writeTo 12 =
      .ok (m.question, 12 + ((m.question.map Query.writeTo).flatten).length) := by
    have heq : m.writeTo = m.header.writeTo ++
        (m.question.map Query.writeTo).flatten ++
        ((m.answer.map Reply.writeTo).flatten ++
          ((m.authority.map Reply.writeTo).flatten ++
            (m.additional.map Reply.writeTo).flatten)) := by
      simp [Message.writeTo, List.append_assoc]
    have h := question_roundtrip m.question m.header.writeTo
      ((m.answer.map Reply.writeTo).flatten ++
        ((m.authority.map Reply.writeTo).flatten ++
          (m.additional.map Reply.writeTo).flatten)) fuel hq hfq
    rw [← heq, header_writeTo_length] at h
    exact h
  have hA : sectionListReadFrom fuel m.answer.length m.writeTo
      (12 + ((m.question.map Query.writeTo).flatten).length) =
      .ok (m.answer, 12 + ((m.question.map Query.writeTo).flatten).length +
        ((m.answer.map Reply.writeTo).flatten).length) := by
    have heq : m.writeTo =
        (m.header.writeTo ++ (m.question.map Query.writeTo).flatten) ++
        (m.answer.map Reply.writeTo).flatten ++
        ((m.authority.map Reply.writeTo).flatten ++
          (m.additional.map Reply.writeTo).flatten) := by
      simp [Message.writeTo, List.append_assoc]
    have h := section_roundtrip m.answer
      (m.header.writeTo ++ (m.question.map Query.writeTo).flatten)
      ((m.authority.map Reply.writeTo).flatten ++
        (m.additional.map Reply.writeTo).flatten) fuel ha hfa
    rw [← heq, List.length_append, header_writeTo_length] at h
    exact h
  have hU : sectionListReadFrom fuel m.authority.length m.writeTo
      (12 + ((m.question.map Query.writeTo).flatten).length +
        ((m.answer.map Reply.writeTo).flatten).length) =
      .ok (m.authority, 12 + ((m.question.map Query.writeTo).flatten).length +
        ((m.answer.map Reply.writeTo).flatten).length +
        ((m.authority.map Reply.writeTo).flatten).length) := by
    have heq : m.writeTo =
        (m.header.writeTo ++ (m.question.map Query.writeTo).flatten ++
          (m.answer.map Reply.writeTo).flatten) ++
        (m.authority.map Reply.writeTo).flatten ++
        (m.additional.map Reply.writeTo).flatten := by
      simp [Message.writeTo, List.append_assoc]
    have h := section_roundtrip m.authority
      (m.header.writeTo ++ (m.question.map Query.writeTo).flatten ++
        (m.answer.map Reply.writeTo).flatten)
      ((m.additional.map Reply.writeTo).flatten) fuel hau hfu
    rw [← heq, List.length_append, List.length_append,
      header_writeTo_length] at h
    exact h
  have hD : sectionListReadFrom fuel m.additional.length m.writeTo
      (12 + ((m.question.map Query.writeTo).flatten).length +
        ((m.answer.map Reply.writeTo).flatten).length +
        ((m.authority.map Reply.writeTo).flatten).length) =
      .ok (m.additional, 12 + ((m.question.map Query.writeTo).flatten).length +
        ((m.answer.map Reply.writeTo).flatten).length +
        ((m.authority.map Reply.writeTo).flatten).length +
        ((m.additional.map Reply.writeTo).flatten).length) := by
    have heq : m.writeTo =
        (m.header.writeTo ++ (m.question.map Query.writeTo).flatten ++
          (m.answer.map Reply.writeTo).flatten ++
          (m.authority.map Reply.writeTo).flatten) ++
        (m.additional.map Reply.writeTo).flatten ++ [] := by
      simp [Message.writeTo, List.append_assoc]
    have h := section_roundtrip m.additional
      (m.header.writeTo ++ (m.question.map Query.writeTo).flatten ++
        (m.answer.map Reply.writeTo).flatten ++
        (m.authority.map Reply.writeTo).flatten) [] fuel had hfd
    rw [← heq, List.length_append, List.length_append, List.length_append,
      header_writeTo_length] at h
    exact h
  unfold Message.readFrom
  rw [hH]
  simp only [hqc, hac, hauc, hadc, hQ, hA, hU, hD]
  have hlen : 12 + ((m.question.map Query.writeTo).flatten).length +
      ((m.answer.map Reply.writeTo).flatten).length +
      ((m.authority.map Reply.writeTo).flatten).length +
      ((m.additional.map Reply.writeTo).flatten).length =
      m.writeTo.length := by
    simp [Message.writeTo, header_writeTo_length]
    omega
  rw [hlen]

/-! The C1 theorems follow the round-trip stack above. -/

/-! ## Consumption bounds: a successful read stays inside the buffer and
    consumes a minimum number of bytes per entry. -/

theorem getElem?_some_lt {buf : List Nat} {i b : Nat}
    (h : buf[i]? = some b) : i < buf.length := by
  by_contra hge
  rw [List.getElem?_eq_none (by omega)] at h
  exact absurd h (by simp)

theorem label_bounds {buf : List Nat} {pos : Nat} {l : Label} {p : Nat}
    (h : Label.readFrom buf pos = some (l, p)) :
    pos + 1 ≤ p ∧ p ≤ buf.length := by
  unfold Label.readFrom at h
  cases h0 : buf[pos]? with
  | none => rw [h0] at h; exact absurd h (by simp)
  | some b0 =>
    rw [h0] at h
    simp only at h
    split at h
    · cases h1 : buf[pos+1]? with
      | none => rw [h1] at h; exact absurd h (by simp)
      | some b1 =>
        rw [h1] at h
        have hlt := getElem?_some_lt h1
        simp only [Option.some.injEq, Prod.mk.injEq] at h
        omega
    · split at h
      · simp only [Option.some.injEq, Prod.mk.injEq] at h
        omega
      · exact absurd h (by simp)

theorem domain_bounds : ∀ (fuel : Nat) (buf : List Nat) (pos : Nat)
    (acc d : Domain) (p : Nat),
    Domain.readFromAux fuel buf pos acc = .ok d p →
    pos + 1 ≤ p ∧ p ≤ buf.length := by
  intro fuel
  induction fuel with
  | zero => intro _ _ _ _ _ h; exact absurd h (by simp [Domain.readFromAux])
  | succ n ih =>
    intro buf pos acc d p h
    unfold Domain.readFromAux at h
    cases hl : Label.readFrom buf pos with
    | none => rw [hl] at h; exact absurd h (by simp)
    | some lp =>
      obtain ⟨label, pos1⟩ := lp
      rw [hl] at h
      have hb := label_bounds hl
      simp only at h
      split at h
      · -- pointer branch
        split at h
        · simp only [DomRes.ok.injEq] at h; omega
        · simp only [DomRes.ok.injEq] at h; omega
        · exact absurd h (by simp)
      · split at h
        · simp only [DomRes.ok.injEq] at h
          omega
        · split at h
          case _ d2 p2 hrec =>
            simp only [DomRes.ok.injEq] at h
            obtain ⟨-, rfl⟩ := h
            have := ih buf pos1 (acc ++ [label]) d2 p2 hrec
            omega
          · exact absurd h (by simp)
          · exact absurd h (by simp)

theorem readU16_bounds {buf : List Nat} {pos v p : Nat}
    (h : readU16 buf pos = some (v, p)) : p = pos + 2 ∧ p ≤ buf.length := by
  unfold readU16 at h
  cases h0 : buf[pos]? <;> cases h1 : buf[pos+1]? <;> rw [h0, h1] at h <;>
    simp only at h
  case some.some =>
    have := getElem?_some_lt h1
    simp only [Option.some.injEq, Prod.mk.injEq] at h
    omega
  all_goals exact absurd h (by simp)

theorem readU32_bounds {buf : List Nat} {pos v p : Nat}
    (h : readU32 buf pos = some (v, p)) : p = pos + 4 ∧ p ≤ buf.length := by
  unfold readU32 at h
  cases h0 : buf[pos]? <;> cases h1 : buf[pos+1]? <;>
    cases h2 : buf[pos+2]? <;> cases h3 : buf[pos+3]? <;>
    rw [h0, h1, h2, h3] at h <;> simp only at h
  case some.some.some.some =>
    have := getElem?_some_lt h3
    simp only [Option.some.injEq, Prod.mk.injEq] at h
    omega
  all_goals exact absurd h (by simp)

theorem query_bounds {fuel : Nat} {buf : List Nat} {pos : Nat} {q : Query}
    {p : Nat} (h : Query.readFrom fuel buf pos = .ok (q, p)) :
    pos + 5 ≤ p ∧ p ≤ buf.length := by
  unfold Query.readFrom at h
  cases hd : Domain.readFromAux fuel buf pos [] with
  | fuelOut => rw [hd] at h; exact absurd h (by simp)
  | eof d => rw [hd] at h; exact absurd h (by simp)
  | ok d p1 =>
    rw [hd] at h
    have hb1 := domain_bounds fuel buf pos [] d p1 hd
    simp only at h
    cases h1 : readU16 buf p1 with
    | none => rw [h1] at h; exact absurd h (by simp)
    | some vp =>
      obtain ⟨t, p2⟩ := vp
      rw [h1] at h
      have hb2 := readU16_bounds h1
      simp only at h
      cases h2 : readU16 buf p2 with
      | none => rw [h2] at h; exact absurd h (by simp)
      | some vp2 =>
        obtain ⟨c, p3⟩ := vp2
        rw [h2] at h
        have hb3 := readU16_bounds h2
        simp only [Res.ok.injEq, Prod.mk.injEq] at h
        omega

theorem rr_bounds {fuel : Nat} {buf : List Nat} {pos : Nat}
    {rr : ResourceRecord} {p : Nat}
    (h : ResourceRecord.readFrom fuel buf pos = .ok (rr, p)) :
    pos + 11 ≤ p ∧ p ≤ buf.length := by
  unfold ResourceRecord.readFrom at h
  cases hq : Query.readFrom fuel buf pos with
  | fuelOut => rw [hq] at h; exact absurd h (by simp)
  | eof => rw [hq] at h; exact absurd h (by simp)
  | ok qp =>
    obtain ⟨q, p1⟩ := qp
    rw [hq] at h
    have hb1 := query_bounds hq
    simp only at h
    cases h1 : readU32 buf p1 with
    | none => rw [h1] at h; exact absurd h (by simp)
    | some vp =>
      obtain ⟨ttl, p2⟩ := vp
      rw [h1] at h
      have hb2 := readU32_bounds h1
      simp only at h
      cases h2 : readU16 buf p2 with
      | none => rw [h2] at h; exact absurd h (by simp)
      | some vp2 =>
        obtain ⟨len, p3⟩ := vp2
        rw [h2] at h
        have hb3 := readU16_bounds h2
        simp only [Res.ok.injEq, Prod.mk.injEq] at h
        omega

theorem readBytes_bounds {k : Nat} {buf : List Nat} {pos : Nat}
    {bs : List Nat} {p : Nat} (h : readBytes k buf pos = some (bs, p)) :
    p = pos + k ∧ p ≤ buf.length := by
  unfold readBytes at h
  split at h
  · simp only [Option.some.injEq, Prod.mk.injEq] at h
    omega
  · exact absurd h (by simp)

theorem entry_bounds : ∀ (fuel : Nat) (buf : List Nat) (pos : Nat)
    (r : Reply) (p : Nat),
    sectionEntryReadFrom fuel buf pos = .ok (r, p) →
    pos + 11 ≤ p ∧ p ≤ buf.length := by
  intro fuel
  induction fuel with
  | zero =>
    intro _ _ _ _ h
    exact absurd h (by simp [sectionEntryReadFrom])
  | succ n ih =>
    intro buf pos r p h
    unfold sectionEntryReadFrom at h
    cases hrr : ResourceRecord.readFrom (n+1) buf pos with
    | fuelOut => rw [hrr] at h; exact absurd h (by simp)
    | eof => rw [hrr] at h; exact absurd h (by simp)
    | ok rp =>
      obtain ⟨rr, p1⟩ := rp
      rw [hrr] at h
      have hb1 := rr_bounds hrr
      simp only at h
      split at h
      · -- type 1: 4 address bytes
        cases hb : readBytes 4 buf p1 with
        | none => rw [hb] at h; exact absurd h (by simp)
        | some ipp =>
          obtain ⟨ip, p2⟩ := ipp
          rw [hb] at h
          have := readBytes_bounds hb
          simp only [Res.ok.injEq, Prod.mk.injEq] at h
          omega
      split at h
      · -- type 2: a domain
        cases hd : Domain.readFromAux (n+1) buf p1 [] with
        | fuelOut => rw [hd] at h; exact absurd h (by simp)
        | eof d => rw [hd] at h; exact absurd h (by simp)
        | ok d p2 =>
          rw [hd] at h
          have := domain_bounds (n+1) buf p1 [] d p2 hd
          simp only [Res.ok.injEq, Prod.mk.injEq] at h
          omega
      split at h
      · -- type 5: a domain
        cases hd : Domain.readFromAux (n+1) buf p1 [] with
        | fuelOut => rw [hd] at h; exact absurd h (by simp)
        | eof d => rw [hd] at h; exact absurd h (by simp)
        | ok d p2 =>
          rw [hd] at h
          have := domain_bounds (n+1) buf p1 [] d p2 hd
          simp only [Res.ok.injEq, Prod.mk.injEq] at h
          omega
      split at h
      · -- type 6: seven inner entries
        cases he1 : sectionEntryReadFrom n buf p1 with
        | fuelOut => rw [he1] at h; exact absurd h (by simp)
        | eof => rw [he1] at h; exact absurd h (by simp)
        | ok e1 =>
          obtain ⟨r1, q1⟩ := e1
          rw [he1] at h
          have hq1 := ih buf p1 r1 q1 he1
          simp only at h
          cases he2 : sectionEntryReadFrom n buf q1 with
          | fuelOut => rw [he2] at h; exact absurd h (by simp)
          | eof => rw [he2] at h; exact absurd h (by simp)
          | ok e2 =>
            obtain ⟨r2, q2⟩ := e2
            rw [he2] at h
            have hq2 := ih buf q1 r2 q2 he2
            simp only at h
            cases he3 : sectionEntryReadFrom n buf q2 with
            | fuelOut => rw [he3] at h; exact absurd h (by simp)
            | eof => rw [he3] at h; exact absurd h (by simp)
            | ok e3 =>
              obtain ⟨r3, q3⟩ := e3
              rw [he3] at h
              have hq3 := ih buf q2 r3 q3 he3
              simp only at h
              cases he4 : sectionEntryReadFrom n buf q3 with
              | fuelOut => rw [he4] at h; exact absurd h (by simp)
              | eof => rw [he4] at h; exact absurd h (by simp)
              | ok e4 =>
                obtain ⟨r4, q4⟩ := e4
                rw [he4] at h
                have hq4 := ih buf q3 r4 q4 he4
                simp only at h
                cases he5 : sectionEntryReadFrom n buf q4 with
                | fuelOut => rw [he5] at h; exact absurd h (by simp)
                | eof => rw [he5] at h; exact absurd h (by simp)
                | ok e5 =>
                  obtain ⟨r5, q5⟩ := e5
                  rw [he5] at h
                  have hq5 := ih buf q4 r5 q5 he5
                  simp only at h
                  cases he6 : sectionEntryReadFrom n buf q5 with
                  | fuelOut => rw [he6] at h; exact absurd h (by simp)
                  | eof => rw [he6] at h; exact absurd h (by simp)
                  | ok e6 =>
                    obtain ⟨r6, q6⟩ := e6
                    rw [he6] at h
                    have hq6 := ih buf q5 r6 q6 he6
                    simp only at h
                    cases he7 : sectionEntryReadFrom n buf q6 with
                    | fuelOut => rw [he7] at h; exact absurd h (by simp)
                    | eof => rw [he7] at h; exact absurd h (by simp)
                    | ok e7 =>
                      obtain ⟨r7, q7⟩ := e7
                      rw [he7] at h
                      have hq7 := ih buf q6 r7 q7 he7
                      simp only [Res.ok.injEq, Prod.mk.injEq] at h
                      omega
      split at h
      · -- type 12: a domain
        cases hd : Domain.readFromAux (n+1) buf p1 [] with
        | fuelOut => rw [hd] at h; exact absurd h (by simp)
        | eof d => rw [hd] at h; exact absurd h (by simp)
        | ok d p2 =>
          rw [hd] at h
          have := domain_bounds (n+1) buf p1 [] d p2 hd
          simp only [Res.ok.injEq, Prod.mk.injEq] at h
          omega
      split at h
      · -- type 15: two inner entries
        cases he1 : sectionEntryReadFrom n buf p1 with
        | fuelOut => rw [he1] at h; exact absurd h (by simp)
        | eof => rw [he1] at h; exact absurd h (by simp)
        | ok e1 =>
          obtain ⟨r1, q1⟩ := e1
          rw [he1] at h
          have hq1 := ih buf p1 r1 q1 he1
          simp only at h
          cases he2 : sectionEntryReadFrom n buf q1 with
          | fuelOut => rw [he2] at h; exact absurd h (by simp)
          | eof => rw [he2] at h; exact absurd h (by simp)
          | ok e2 =>
            obtain ⟨r2, q2⟩ := e2
            rw [he2] at h
            have hq2 := ih buf q1 r2 q2 he2
            simp only [Res.ok.injEq, Prod.mk.injEq] at h
            omega
      split at h
      · -- type 16: a domain
        cases hd : Domain.readFromAux (n+1) buf p1 [] with
        | fuelOut => rw [hd] at h; exact absurd h (by simp)
        | eof d => rw [hd] at h; exact absurd h (by simp)
        | ok d p2 =>
          rw [hd] at h
          have := domain_bounds (n+1) buf p1 [] d p2 hd
          simp only [Res.ok.injEq, Prod.mk.injEq] at h
          omega
      split at h
      · -- type 28: 16 address bytes
        cases hb : readBytes 16 buf p1 with
        | none => rw [hb] at h; exact absurd h (by simp)
        | some ipp =>
          obtain ⟨ip, p2⟩ := ipp
          rw [hb] at h
          have := readBytes_bounds hb
          simp only [Res.ok.injEq, Prod.mk.injEq] at h
          omega
      · -- unknown type: skip declared length
        split at h
        · simp only [Res.ok.injEq, Prod.mk.injEq] at h
          omega
        · exact absurd h (by simp)

theorem list_bounds : ∀ (count : Nat) (fuel : Nat) (buf : List Nat)
    (pos : Nat) (rs : List Reply) (p : Nat), pos ≤ buf.length →
    sectionListReadFrom fuel count buf pos = .ok (rs, p) →
    pos + 11 * count ≤ p ∧ p ≤ buf.length := by
  intro count
  induction count with
  | zero =>
    intro fuel buf pos rs p hpos h
    simp only [sectionListReadFrom, Res.ok.injEq, Prod.mk.injEq] at h
    omega
  | succ c ih =>
    intro fuel buf pos rs p hpos h
    unfold sectionListReadFrom at h
    cases he : sectionEntryReadFrom fuel buf pos with
    | fuelOut => rw [he] at h; exact absurd h (by simp)
    | eof => rw [he] at h; exact absurd h (by simp)
    | ok e =>
      obtain ⟨r, p1⟩ := e
      rw [he] at h
      have hb1 := entry_bounds fuel buf pos r p1 he
      simp only at h
      cases hl : sectionListReadFrom fuel c buf p1 with
      | fuelOut => rw [hl] at h; exact absurd h (by simp)
      | eof => rw [hl] at h; exact absurd h (by simp)
      | ok lp =>
        obtain ⟨rs2, p2⟩ := lp
        rw [hl] at h
        have hb2 := ih fuel buf p1 rs2 p2 (by omega) hl
        simp only [Res.ok.injEq, Prod.mk.injEq] at h
        omega

theorem question_list_bounds : ∀ (count : Nat) (fuel : Nat) (buf : List Nat)
    (pos : Nat) (qs : List Query) (p : Nat), pos ≤ buf.length →
    questionReadFrom fuel count buf pos = .ok (qs, p) →
    pos + 5 * count ≤ p ∧ p ≤ buf.length := by
  intro count
  induction count with
  | zero =>
    intro fuel buf pos qs p hpos h
    simp only [questionReadFrom, Res.ok.injEq, Prod.mk.injEq] at h
    omega
  | succ c ih =>
    intro fuel buf pos qs p hpos h
    unfold questionReadFrom at h
    cases he : Query.readFrom fuel buf pos with
    | fuelOut => rw [he] at h; exact absurd h (by simp)
    | eof => rw [he] at h; exact absurd h (by simp)
    | ok e =>
      obtain ⟨q, p1⟩ := e
      rw [he] at h
      have hb1 := query_bounds he
      simp only at h
      cases hl : questionReadFrom fuel c buf p1 with
      | fuelOut => rw [hl] at h; exact absurd h (by simp)
      | eof => rw [hl] at h; exact absurd h (by simp)
      | ok lp =>
        obtain ⟨qs2, p2⟩ := lp
        rw [hl] at h
        have hb2 := ih fuel buf p1 qs2 p2 (by omega) hl
        simp only [Res.ok.injEq, Prod.mk.injEq] at h
        omega

theorem header_bounds {buf : List Nat} {pos : Nat} {h : Header} {p : Nat}
    (hr : Header.readFrom buf pos = some (h, p)) :
    p = pos + 12 ∧ p ≤ buf.length := by
  unfold Header.readFrom at hr
  cases h1 : readU16 buf pos with
  | none => rw [h1] at hr; exact absurd hr (by simp)
  | some v1 =>
    obtain ⟨hid, p1⟩ := v1
    rw [h1] at hr
    have hb1 := readU16_bounds h1
    simp only at hr
    cases h2 : readU16 buf (min (p1 + 2) buf.length) with
    | none => rw [h2] at hr; exact absurd hr (by simp)
    | some v2 =>
      obtain ⟨qd, p3⟩ := v2
      rw [h2] at hr
      have hb2 := readU16_bounds h2
      simp only at hr
      cases h3 : readU16 buf p3 with
      | none => rw [h3] at hr; exact absurd hr (by simp)
      | some v3 =>
        obtain ⟨an, p4⟩ := v3
        rw [h3] at hr
        have hb3 := readU16_bounds h3
        simp only at hr
        cases h4 : readU16 buf p4 with
        | none => rw [h4] at hr; exact absurd hr (by simp)
        | some v4 =>
          obtain ⟨ns, p5⟩ := v4
          rw [h4] at hr
          have hb4 := readU16_bounds h4
          simp only at hr
          cases h5 : readU16 buf p5 with
          | none => rw [h5] at hr; exact absurd hr (by simp)
          | some v5 =>
            obtain ⟨ar, p6⟩ := v5
            rw [h5] at hr
            have hb5 := readU16_bounds h5
            simp only [Option.some.injEq, Prod.mk.injEq] at hr
            omega

theorem message_consumes {fuel : Nat} {buf : List Nat} {h : Header}
    {m : Message} {n : Nat}
    (hh : Header.readFrom buf 0 = some (h, 12))
    (hok : Message.readFrom fuel buf = .ok (m, n)) :
    12 + 5 * h.questionCount +
      11 * (h.answerCount + h.authorityCount + h.additionalCount) ≤ n ∧
    n ≤ buf.length := by
  have hhb := header_bounds hh
  unfold Message.readFrom at hok
  rw [hh] at hok
  simp only at hok
  cases hq : questionReadFrom fuel h.questionCount buf 12 with
  | fuelOut => rw [hq] at hok; exact absurd hok (by simp)
  | eof => rw [hq] at hok; exact absurd hok (by simp)
  | ok qp =>
    obtain ⟨qs, p2⟩ := qp
    rw [hq] at hok
    have hb2 := question_list_bounds h.questionCount fuel buf 12 qs p2
      (by omega) hq
    simp only at hok
    cases ha : sectionListReadFrom fuel h.answerCount buf p2 with
    | fuelOut => rw [ha] at hok; exact absurd hok (by simp)
    | eof => rw [ha] at hok; exact absurd hok (by simp)
    | ok ap =>
      obtain ⟨ans, p3⟩ := ap
      rw [ha] at hok
      have hb3 := list_bounds h.answerCount fuel buf p2 ans p3
        (by omega) ha
      simp only at hok
      cases hu : sectionListReadFrom fuel h.authorityCount buf p3 with
      | fuelOut => rw [hu] at hok; exact absurd hok (by simp)
      | eof => rw [hu] at hok; exact absurd hok (by simp)
      | ok up =>
        obtain ⟨aus, p4⟩ := up
        rw [hu] at hok
        have hb4 := list_bounds h.authorityCount fuel buf p3 aus p4
          (by omega) hu
        simp only at hok
        cases hd : sectionListReadFrom fuel h.additionalCount buf p4 with
        | fuelOut => rw [hd] at hok; exact absurd hok (by simp)
        | eof => rw [hd] at hok; exact absurd hok (by simp)
        | ok dp =>
          obtain ⟨ads, p5⟩ := dp
          rw [hd] at hok
          have hb5 := list_bounds h.additionalCount fuel buf p4 ads p5
            (by omega) hd
          simp only [Res.ok.injEq, Prod.mk.injEq] at hok
          omega

/-! ## Claim theorems -/

/-- C10: a name beginning with the bytes 0xC0 0x00 encodes offset 0, so the
    pointer branch is not taken: the two bytes are kept as a literal label
    with length tag 0xC0 and, that tag being nonzero, the decoder goes on
    reading further labels from the current position. -/
theorem c10_zero_offset_not_followed :
    Label.offset ⟨192, [0]⟩ = 0 ∧
    Domain.readFrom 10 [192, 0, 0] 0 = .ok [⟨192, [0]⟩, ⟨0, []⟩] 3 := by
  decide

/-- C2 (code divergence): on a buffer whose name starts with a compression
    pointer referencing its own position, Domain.ReadFrom exhausts every
    fuel — the unbounded recursion of the source never terminates, and no
    compression-loop error is ever produced. -/
theorem c2_self_pointer_diverges :
    ∀ fuel acc, Domain.readFromAux fuel selfPtrBuf 1 acc = .fuelOut := by
  intro fuel
  induction fuel with
  | zero => intro _; rfl
  | succ n ih =>
    intro acc
    have h1 : Label.readFrom selfPtrBuf 1 = some (⟨192, [1]⟩, 3) := rfl
    have h2 : Label.offset ⟨192, [1]⟩ = 1 := rfl
    simp only [Domain.readFromAux, h1, h2]
    rw [ih acc]
    simp

/-- C5 counterexample: the length octet 0x40 has exactly one reserved bit
    set, yet Label.ReadFrom succeeds, treating the whole octet as a literal
    label length of 64 — no malformed-length-tag error is raised. -/
theorem c5_counterexample :
    (64 : Nat) &&& 192 = 64 ∧
    Label.readFrom (64 :: List.replicate 64 7) 0 =
      some (⟨64, List.replicate 64 7⟩, 65) := by
  decide

/-- C5 amended: a length octet with exactly one of the two reserved bits set
    is treated as a literal label length equal to the full octet value
    (reserved bit included); when that many bytes follow, Label.ReadFrom
    succeeds with them as the label, and no format error exists. -/
theorem c5_single_reserved_bit_is_literal (buf : List Nat) (pos b : Nat)
    (hb : buf[pos]? = some b) (h1 : b &&& 192 = 64 ∨ b &&& 192 = 128)
    (hlen : pos + 1 + b ≤ buf.length) :
    Label.readFrom buf pos =
      some (⟨b, (buf.drop (pos+1)).take b⟩, pos + 1 + b) := by
  unfold Label.readFrom
  rw [hb]
  have hne : ¬ b &&& 192 = 192 := by omega
  simp [hne, hlen]

theorem c5_witness :
    Label.readFrom (64 :: List.replicate 64 9) 0 =
      some (⟨64, ((64 :: List.replicate 64 9).drop 1).take 64⟩, 0 + 1 + 64) :=
  c5_single_reserved_bit_is_literal _ 0 64 (by decide) (Or.inl (by decide))
    (by decide)

/-- C9: a response code outside 0-5 misses every key of the errors map, so
    Message.Error returns the map's zero value, nil — indistinguishable from
    no error. -/
theorem c9_unknown_response_code_is_nil (m : Message)
    (h : 5 < m.header.responseCode) : m.error = none := by
  unfold Message.error errorsMap
  rw [if_neg (by omega), if_neg (by omega), if_neg (by omega),
    if_neg (by omega), if_neg (by omega), if_neg (by omega)]

theorem c9_witness :
    Message.error
      ⟨⟨0, false, 0, false, false, false, false, 6, 0, 0, 0, 0⟩,
        [], [], [], []⟩ = none :=
  c9_unknown_response_code_is_nil _ (by decide)

/-- C8 counterexample: on a message whose question count and question list
    both sit at 65535, AddQuery wraps the 16-bit counter to 0 while the list
    grows to 65536, so the new count is not the old count plus one and the
    count/length invariant is broken. -/
theorem c8_counterexample :
    maxCountMsg.header.questionCount = maxCountMsg.question.length ∧
    (maxCountMsg.addQuery rootQuery).header.questionCount = 0 ∧
    (maxCountMsg.addQuery rootQuery).question.length = 65536 ∧
    (maxCountMsg.addQuery rootQuery).header.questionCount ≠
      maxCountMsg.header.questionCount + 1 ∧
    (maxCountMsg.addQuery rootQuery).header.questionCount ≠
      (maxCountMsg.addQuery rootQuery).question.length := by
  have h1 : (maxCountMsg.addQuery rootQuery).question =
      List.replicate 65535 rootQuery ++ [rootQuery] := rfl
  have h2 : (maxCountMsg.addQuery rootQuery).question.length = 65536 := by
    rw [h1, List.length_append, List.length_replicate, List.length_singleton]
  have h3 : (maxCountMsg.addQuery rootQuery).header.questionCount = 0 := rfl
  have h4 : maxCountMsg.header.questionCount = 65535 := rfl
  have h5 : maxCountMsg.question.length = 65535 := by
    show (List.replicate 65535 rootQuery).length = 65535
    exact List.length_replicate _ _
  exact ⟨by rw [h4, h5], h3, h2, by rw [h3, h4]; omega, by rw [h3, h2]; omega⟩

/-- C8 amended: AddQuery appends the query and sets the question count to
    the old count plus one reduced modulo 2^16; the invariant
    QuestionCount = len(Question) is therefore preserved exactly when the
    question list is shorter than 65535 entries (so, starting from the zero
    message, for the first 65535 additions). -/
theorem c8_addQuery_appends_and_wraps (m : Message) (q : Query) :
    (m.addQuery q).question = m.question ++ [q] ∧
    (m.addQuery q).header.questionCount =
      (m.header.questionCount + 1) % 65536 ∧
    (m.header.questionCount = m.question.length →
      m.question.length < 65535 →
      (m.addQuery q).header.questionCount =
        (m.addQuery q).question.length) := by
  refine ⟨rfl, rfl, ?_⟩
  intro hinv hlt
  simp only [Message.addQuery, List.length_append, List.length_cons,
    List.length_nil]
  omega

theorem c8_witness :
    (zeroMsg.addQuery rootQuery).header.questionCount =
      (zeroMsg.addQuery rootQuery).question.length :=
  (c8_addQuery_appends_and_wraps zeroMsg rootQuery).2.2 (by decide) (by decide)

/-- C6 counterexample: a header whose second control byte is 0x10 (a bit in
    the 4-6 range set, bits 0-3 clear) decodes to response code 16, not 0:
    bits 4-6 of that byte do reach the decoded ResponseCode. -/
theorem c6_counterexample :
    (Header.readFrom zBitHeaderBuf 0).map (fun hp => hp.1.responseCode) =
      some 16 ∧ (16 : Nat) &&& 15 = 0 := by
  decide

/-- C6 amended: Header.ReadFrom decodes the response code as bits 0-6 of the
    second control byte — only bit 7, the recursion-available bit, is masked
    off — while the concrete pair 0x81 0x80 still decodes to is-reply=true,
    opcode=0, authoritative=false, truncated=false, recursion-desired=true,
    recursion-available=true, response-code=0. -/
theorem c6_response_code_low_seven_bits (buf : List Nat) (pos : Nat)
    (h : Header) (p : Nat) (hread : Header.readFrom buf pos = some (h, p)) :
    h.responseCode = (buf[pos+3]?).getD 0 &&& 127 ∧
    Header.readFrom [0, 0, 129, 128, 0, 0, 0, 0, 0, 0, 0, 0] 0 =
      some (⟨0, true, 0, false, false, true, true, 0, 0, 0, 0, 0⟩, 12) := by
  refine ⟨?_, by decide⟩
  unfold Header.readFrom at hread
  split at hread
  · exact absurd hread (by simp)
  case _ hid p1 hu =>
    have hp1 : p1 = pos + 2 := readU16_snd _ _ _ _ hu
    simp only at hread
    split at hread
    · exact absurd hread (by simp)
    split at hread
    · exact absurd hread (by simp)
    split at hread
    · exact absurd hread (by simp)
    split at hread
    · exact absurd hread (by simp)
    simp only [Option.some.injEq, Prod.mk.injEq] at hread
    obtain ⟨hh, -⟩ := hread
    subst hh hp1
    rfl

theorem c6_witness :
    Header.readFrom [0, 0, 129, 128, 0, 0, 0, 0, 0, 0, 0, 0] 0 =
      some (⟨0, true, 0, false, false, true, true, 0, 0, 0, 0, 0⟩, 12) :=
  (c6_response_code_low_seven_bits [0, 0, 129, 128, 0, 0, 0, 0, 0, 0, 0, 0] 0
    ⟨0, true, 0, false, false, true, true, 0, 0, 0, 0, 0⟩ 12 (by decide)).2

/-- C4 counterexample: at position 1 of `zeroPtrBuf` both reserved bits of
    the length octet are set and the encoded 14-bit offset, 0, points at a
    well-formed (empty) name at the start of the buffer — yet the decoder
    does not follow the pointer: it keeps the two bytes as a literal label
    and runs off the end of the buffer instead of returning that name with
    the cursor 2 bytes past the pointer. -/
theorem c4_counterexample :
    (192 : Nat) &&& 192 = 192 ∧
    zeroPtrBuf = [] ++ Domain.writeTo [⟨0, []⟩] ++ [192, 0] ∧
    wfDomain [⟨0, []⟩] = true ∧
    Domain.readFrom 10 zeroPtrBuf 1 = .eof [⟨192, [0]⟩] ∧
    Domain.readFrom 10 zeroPtrBuf 1 ≠ .ok [⟨0, []⟩] 3 := by
  decide

/-- C4 amended: when a name's length octet has both reserved bits set and
    the encoded 14-bit offset is nonzero and points at a well-formed name,
    Domain.ReadFrom produces exactly that name and leaves the cursor two
    bytes past the start of the pointer. -/
theorem c4_nonzero_pointer_followed (buf pre post : List Nat) (d : Domain)
    (pos t b1 fuel : Nat)
    (hb : buf[pos]? = some t) (ht : t &&& 192 = 192)
    (hb1 : buf[pos+1]? = some b1)
    (ho : ((t &&& 63) <<< 8) ||| b1 ≠ 0)
    (hdecomp : buf = pre ++ Domain.writeTo d ++ post)
    (hpre : pre.length = ((t &&& 63) <<< 8) ||| b1)
    (hwf : wfDomain d = true) (hfuel : d.length < fuel) :
    Domain.readFrom fuel buf pos = .ok d (pos + 2) := by
  obtain ⟨n, rfl⟩ : ∃ n, fuel = n + 1 := ⟨fuel - 1, by omega⟩
  have hlab : Label.readFrom buf pos = some (⟨t, [b1]⟩, pos + 2) := by
    unfold Label.readFrom
    rw [hb]
    simp [ht, hb1]
  have hoff : Label.offset ⟨t, [b1]⟩ = ((t &&& 63) <<< 8) ||| b1 := by
    simp [Label.offset, ht]
  unfold Domain.readFrom
  simp only [Domain.readFromAux, hlab, hoff]
  rw [if_pos ho, ← hpre, hdecomp]
  rw [domain_roundtrip d pre post [] n hwf (by omega)]
  simp

theorem c4_witness :
    Domain.readFrom 3 [0, 1, 120, 0, 192, 1] 4 =
      .ok [⟨1, [120]⟩, ⟨0, []⟩] (4 + 2) :=
  c4_nonzero_pointer_followed [0, 1, 120, 0, 192, 1] [0] [192, 1]
    [⟨1, [120]⟩, ⟨0, []⟩] 4 192 1 3 (by decide) (by decide) (by decide)
    (by decide) (by decide) (by decide) (by decide) (by decide)

/-- C7: a resource record with an unrecognized type tag does not make the
    decode fail: after the common prefix the decoder skips exactly the
    declared payload length and the cursor lands at the start of the next
    record (the slice slot stays nil). -/
theorem c7_unknown_type_opaque_skip (fuel : Nat) (buf : List Nat)
    (pos p1 : Nat) (rr : ResourceRecord)
    (hrr : ResourceRecord.readFrom (fuel+1) buf pos = .ok (rr, p1))
    (hunk : ¬ rr.query.qtype ∈ ([1, 2, 5, 6, 12, 15, 16, 28] : List Nat))
    (hlen : p1 + rr.length ≤ buf.length) :
    sectionEntryReadFrom (fuel+1) buf pos = .ok (.nilReply, p1 + rr.length) := by
  simp only [List.mem_cons, List.not_mem_nil, or_false, not_or] at hunk
  obtain ⟨h1, h2, h5, h6, h12, h15, h16, h28⟩ := hunk
  rw [sectionEntryReadFrom, hrr]
  simp only [h1, h2, h5, h6, h12, h15, h16, h28, if_false, hlen, if_true,
    if_neg h1, if_neg h2, if_neg h5, if_neg h6, if_neg h12, if_neg h15,
    if_neg h16, if_neg h28, if_pos hlen]

theorem c7_witness :
    sectionEntryReadFrom 10 unknownTypeBuf 0 = .ok (.nilReply, 11 + 2) :=
  c7_unknown_type_opaque_skip 9 unknownTypeBuf 0 11 ⟨⟨[⟨0, []⟩], 99, 1⟩, 0, 2⟩
    (by decide) (by decide) (by decide)

/-- C1 counterexample: a message whose single answer record is a mailbox
    (MB, type 7) variant — a member of the claim's record-variant set, with a
    pointer-free, well-terminated owner name, counts matching the sections
    and the declared payload length matching the encoded payload — does not
    survive decode(encode(m)): the decoder's dispatch has no MB case, so the
    record is skipped as an unknown type and comes back as a nil slot. -/
theorem c1_counterexample :
    mbMsg.header.questionCount = mbMsg.question.length ∧
    mbMsg.header.answerCount = mbMsg.answer.length ∧
    mbMsg.header.authorityCount = mbMsg.authority.length ∧
    mbMsg.header.additionalCount = mbMsg.additional.length ∧
    Message.unmarshalBinary 100 mbMsg.marshalBinary =
      .ok (mbMsgDecoded, none) ∧
    mbMsgDecoded ≠ mbMsg := by
  refine ⟨rfl, rfl, rfl, rfl, by decide, by decide⟩

/-- C1 amended: the round trip decode(encode(m)) = m holds field-for-field
    for every well-formed message whose record sections only use the variants
    the decoder actually reconstructs — address, name-server, canonical-name,
    pointer, text and IPv6-address, each carrying its own type tag — whose
    names are pointer-free well-terminated label sequences with in-range
    length octets, whose numeric fields fit their declared widths (opcode
    below 16, response code below 128), and whose header counts equal the
    section lengths.  The remaining variants of the claimed set (start-of-
    authority, mail-exchange, host-info, mailbox-info, mailbox, mail-
    destination, mail-forwarder, mail-group, mail-rename) do not round-trip:
    SOA and MX payloads are re-parsed as whole records and discarded, the
    others are skipped as unknown types. -/
theorem c1_good_variant_roundtrip (m : Message) (fuel : Nat)
    (hgood : goodMessage m = true) (hfuel : msgFuel m ≤ fuel) :
    Message.unmarshalBinary fuel m.marshalBinary = .ok (m, m.error) := by
  unfold Message.unmarshalBinary Message.marshalBinary
  rw [message_roundtrip m fuel hgood hfuel]

theorem c1_witness :
    goodMessage exampleMsg = true ∧
    Message.unmarshalBinary (msgFuel exampleMsg) exampleMsg.marshalBinary =
      .ok (exampleMsg, exampleMsg.error) :=
  ⟨by decide, c1_good_variant_roundtrip exampleMsg (msgFuel exampleMsg)
    (by decide) (le_refl _)⟩

/-- C3 counterexample: `loopMsgBuf` has a 12-byte header declaring one
    question while only two bytes remain (fewer than any question can
    occupy), yet Message.ReadFrom does not fail with a short-read error:
    the question's name is a self-referential compression pointer, so the
    decode exhausts every fuel — the unbounded recursion of the source never
    returns at all. -/
theorem c3_counterexample :
    Header.readFrom loopMsgBuf 0 =
      some (⟨0, false, 0, false, false, false, false, 0, 1, 0, 0, 0⟩, 12) ∧
    loopMsgBuf.length < 12 + 5 * 1 ∧
    loopMsgDiverges := by
  refine ⟨by decide, by decide, ?_⟩
  intro fuel
  have hq : ∀ f acc, Domain.readFromAux f loopMsgBuf 12 acc = .fuelOut := by
    intro f
    induction f with
    | zero => intro _; rfl
    | succ k ih =>
      intro acc
      have h1 : Label.readFrom loopMsgBuf 12 = some (⟨192, [12]⟩, 14) := rfl
      have h2 : Label.offset ⟨192, [12]⟩ = 12 := rfl
      simp only [Domain.readFromAux, h1, h2]
      rw [ih acc]
      simp
  have hquery : Query.readFrom fuel loopMsgBuf 12 = .fuelOut := by
    unfold Query.readFrom
    rw [hq fuel []]
  have hh : Header.readFrom loopMsgBuf 0 =
      some (⟨0, false, 0, false, false, false, false, 0, 1, 0, 0, 0⟩, 12) := by
    decide
  unfold Message.readFrom
  rw [hh]
  simp only [questionReadFrom, hquery]

/-- C3 amended: when the 12-byte header declares counts whose minimum
    encoding cannot fit in the buffer (each question occupies at least 5
    bytes and each record at least 11), Message.ReadFrom never succeeds and
    never reads past the buffer end; it fails with a short-read error except
    when name decoding diverges on a compression-pointer cycle, in which
    case the unbounded recursion of the source never returns (modelled as
    fuel exhaustion at every fuel). -/
theorem c3_short_counts_never_succeed (buf : List Nat) (h : Header)
    (fuel : Nat) (hh : Header.readFrom buf 0 = some (h, 12))
    (hshort : buf.length < 12 + 5 * h.questionCount +
      11 * (h.answerCount + h.authorityCount + h.additionalCount)) :
    Message.readFrom fuel buf = .eof ∨ Message.readFrom fuel buf = .fuelOut := by
  cases hres : Message.readFrom fuel buf with
  | ok mp =>
    obtain ⟨m, n⟩ := mp
    have hb := message_consumes hh hres
    omega
  | eof => left; rfl
  | fuelOut => right; rfl

theorem c3_witness :
    (Header.readFrom shortQuestionBuf 0 =
      some (⟨0, false, 0, false, false, false, false, 0, 1, 0, 0, 0⟩, 12)) ∧
    shortQuestionBuf.length < 12 + 5 * 1 + 11 * (0 + 0 + 0) ∧
    (Message.readFrom 5 shortQuestionBuf = .eof ∨
      Message.readFrom 5 shortQuestionBuf = .fuelOut) :=
  ⟨by decide, by decide,
    c3_short_counts_never_succeed shortQuestionBuf
      ⟨0, false, 0, false, false, false, false, 0, 1, 0, 0, 0⟩ 5
      (by decide) (by decide)⟩

end Multidns
